import Mathlib

/-!
Verification development for the streaming transcriber pipeline
(`streaming_transcriber.py`).

The Python code is shallowly embedded as follows:

* Python `float` configuration values (durations, thresholds) are modelled
  as exact rationals (`ℚ`); real-valued loudness results (which involve a
  square root) live in `ℝ`.  All concrete inputs used below are chosen so
  that the exact-rational arithmetic agrees with IEEE-754 double arithmetic.
* An audio chunk is the byte buffer handed to the loop: `List ℕ`, one entry
  per byte (Python guarantees the range 0–255; where a property needs it we
  hypothesise it).
* `int(x)` on a float is truncation towards zero (`pyInt`), and `//` on
  Python ints is floor division (`Int.fdiv`).
* Fallible code (a `struct.error`, a `ZeroDivisionError`) is modelled with
  `Option`: `none` is an uncaught exception at that point of the program.
* The `run` loop's mutable state (`recording`, `audio_chunks`,
  `self.pre_buffer`) becomes an explicit state record threaded through a
  step function; the emitted speech spans (the trimmed buffers handed to
  `transcribe_audio`) are collected.  An exception stops the loop, exactly
  as the `except Exception` around `run`'s `for` loop does.
* The HTTP boundary of `transcribe_audio` is abstracted as a response value
  (status code plus the shape of the JSON body); everything on this side of
  the wire — multipart assembly, status check, `text` extraction, artifact
  cleaning — is embedded from the code.
-/

/-- Python `int(x)` applied to a (finite) float: truncation towards zero. -/
def pyInt (q : ℚ) : ℤ := if 0 ≤ q then ⌊q⌋ else ⌈q⌉

/-- The last `n` elements of a list (all of it when it is shorter), which is
both the state kept by a `deque(maxlen=n)` and the Python slice `l[-n:]` for
`n ≥ 1`. -/
def takeLastN (n : ℕ) (l : List α) : List α := l.drop (l.length - n)

/-- The Python slice `l[-k:]` for an arbitrary integer `k`: for `k ≥ 1` the
last `k` elements, for `k = 0` the whole list (since `-0 = 0`), and for
`k < 0` the slice `l[(-k):]`, i.e. the list with its first `-k` elements
removed. -/
def pySliceFromNeg (l : List α) (k : ℤ) : List α :=
  if k ≤ 0 then l.drop (-k).toNat else takeLastN k.toNat l

/-- `deque(maxlen=cap).append c`: append on the right, evicting from the
left past capacity. -/
def dequePush (cap : ℤ) (buf : List α) (c : α) : List α :=
  takeLastN cap.toNat (buf ++ [c])

/-- Reinterpret the 16-bit pattern `v` as a signed (two's complement)
value, as `struct.unpack '<h'` does for the two bytes forming `v`. -/
def toSigned16 (v : ℕ) : ℤ :=
  if v % 65536 < 32768 then (v % 65536 : ℤ) else (v % 65536 : ℤ) - 65536

/-- `struct.unpack(f'<{n//2}h', chunk)`: consecutive byte pairs, little
endian, as signed 16-bit samples. -/
def unpackSamples : List ℕ → List ℤ
  | b0 :: b1 :: rest => toSigned16 (b0 + 256 * b1) :: unpackSamples rest
  | _ => []

/-- `sum(sample * sample for sample in samples) / len(samples)` as an exact
rational. -/
def mean_square_of (samples : List ℤ) : ℚ :=
  ((samples.map (fun s => s * s)).sum : ℤ) / (samples.length : ℚ)

/-- The mean square of the samples encoded by a byte buffer. -/
def mean_square (chunk : List ℕ) : ℚ := mean_square_of (unpackSamples chunk)

/-- `StreamingTranscriber.calculate_rms`.  A buffer of fewer than two bytes
yields `0.0`; a buffer of odd length at least 3 makes `struct.unpack` raise
(`none`); otherwise the result is `sqrt(mean_square) / 32768`. -/
noncomputable def calculate_rms (chunk : List ℕ) : Option ℝ :=
  if chunk.length < 2 then some 0
  else if 2 * (chunk.length / 2) ≠ chunk.length then none
  else
    let samples := unpackSamples chunk
    if samples = [] then some 0
    else some (Real.sqrt ((mean_square_of samples : ℚ) : ℝ) / 32768)

/-- The constructor arguments of `StreamingTranscriber` that the embedded
functions consume.  `temperature` carries the decimal rendering that the
f-string in `create_multipart_stream` produces from the float. -/
structure Config where
  silence_threshold : ℝ
  silence_duration : ℚ
  sample_rate : ℕ
  pre_buffer_duration : ℚ
  language : String
  initial_prompt : Option String
  temperature : String
  chunk_duration : ℚ

/-- `self.chunks_per_second = int(1.0 / chunk_duration)`. -/
def chunks_per_second (cfg : Config) : ℤ := pyInt (1 / cfg.chunk_duration)

/-- `self.pre_buffer_size = int(pre_buffer_duration / chunk_duration)`. -/
def pre_buffer_size (cfg : Config) : ℤ :=
  pyInt (cfg.pre_buffer_duration / cfg.chunk_duration)

/-- `min_recording_chunks = int(0.3 / self.chunk_duration)` from `run`. -/
def min_recording_chunks (cfg : Config) : ℤ := pyInt (3/10 / cfg.chunk_duration)

/-- `required_chunks = int(self.silence_duration * self.chunks_per_second)`
from `detect_silence`. -/
def required_chunks (cfg : Config) : ℤ :=
  pyInt (cfg.silence_duration * (chunks_per_second cfg : ℚ))

/-- `silence_chunks_to_remove = max(1, int(self.silence_duration * 10) // 3)`
from `run`; Python `//` is floor division. -/
def silence_chunks_to_remove (cfg : Config) : ℤ :=
  max 1 ((pyInt (cfg.silence_duration * 10)).fdiv 3)

/-- The counting loop of `detect_silence`: for each chunk compute its RMS
and count it when it is at or below the threshold.  An RMS failure
propagates. -/
noncomputable def countSilent (cfg : Config) : List (List ℕ) → Option ℕ
  | [] => some 0
  | c :: rest =>
    (calculate_rms c).bind fun rms =>
      (countSilent cfg rest).map fun n =>
        (if rms ≤ cfg.silence_threshold then 1 else 0) + n

open Classical in
/-- `StreamingTranscriber.detect_silence`.  The final comparison
`silence_ratio >= 0.85` is the exact-rational counterpart of the float
comparison; division by zero (an empty slice) raises (`none`). -/
noncomputable def detect_silence (cfg : Config) (audio_chunks : List (List ℕ)) :
    Option Bool :=
  if (audio_chunks.length : ℤ) < required_chunks cfg then some false
  else
    let recent := pySliceFromNeg audio_chunks (required_chunks cfg)
    (countSilent cfg recent).bind fun silent =>
      if recent.length = 0 then none
      else some (decide ((85/100 : ℚ) ≤ (silent : ℚ) / (recent.length : ℚ)))

/-- The mutable state of `run`'s loop. -/
structure RunState where
  recording : Bool
  audio_chunks : List (List ℕ)
  pre_buffer : List (List ℕ)
deriving DecidableEq

/-- `run` before the first chunk: not recording, both buffers empty. -/
def initState : RunState := ⟨false, [], []⟩

open Classical in
/-- One iteration of `run`'s `for` loop on one chunk.  Returns the next
state and the finalized span, if this chunk triggered finalization; `none`
is an exception escaping the iteration (which stops the loop). -/
noncomputable def step (cfg : Config) (s : RunState) (chunk : List ℕ) :
    Option (RunState × Option (List (List ℕ))) :=
  (calculate_rms chunk).bind fun rms =>
    if s.recording = false ∧ cfg.silence_threshold < rms then
      some (⟨true, s.pre_buffer ++ [chunk], s.pre_buffer⟩, none)
    else if s.recording = false then
      some (⟨false, s.audio_chunks, dequePush (pre_buffer_size cfg) s.pre_buffer chunk⟩, none)
    else
      let audio := s.audio_chunks ++ [chunk]
      if min_recording_chunks cfg < (audio.length : ℤ) then
        (detect_silence cfg audio).bind fun isSilent =>
          if isSilent then
            let toRemove := silence_chunks_to_remove cfg
            let trimmed :=
              if toRemove + pre_buffer_size cfg < (audio.length : ℤ) then
                audio.take (audio.length - toRemove.toNat)
              else audio
            some (⟨false, [], []⟩, some trimmed)
          else some (⟨true, audio, s.pre_buffer⟩, none)
      else some (⟨true, audio, s.pre_buffer⟩, none)

/-- Outcome of running the loop over a chunk sequence: final state, the
spans handed to `transcribe_audio` in order, and whether an exception ended
the loop early. -/
structure RunResult where
  final : RunState
  spans : List (List (List ℕ))
  errored : Bool

/-- `run`'s loop over a whole chunk sequence. -/
noncomputable def runLoop (cfg : Config) : RunState → List (List ℕ) → RunResult
  | s, [] => ⟨s, [], false⟩
  | s, chunk :: rest =>
    match step cfg s chunk with
    | none => ⟨s, [], true⟩
    | some (s', out) =>
      let r := runLoop cfg s' rest
      ⟨r.final, out.toList ++ r.spans, r.errored⟩

-- sanity: pyInt truncates towards zero
example : pyInt (3/2) = 1 := by norm_num [pyInt]
example : pyInt 4 = 4 := by norm_num [pyInt]

/-! ## Payload encoder: WAV header synthesis and multipart assembly -/

/-- The two little-endian bytes of a 16-bit value. -/
def u16le (v : ℕ) : List ℕ := [v % 256, v / 256]

/-- The four little-endian bytes of a 32-bit value. -/
def u32le (v : ℕ) : List ℕ :=
  [v % 256, v / 256 % 256, v / 65536 % 256, v / 16777216]

/-- `struct.pack '<H'`: two little-endian bytes; out-of-range values raise
`struct.error`. -/
def packU16 (v : ℕ) : Option (List ℕ) :=
  if v < 65536 then some (u16le v) else none

/-- `struct.pack '<I'`: four little-endian bytes; out-of-range values raise
`struct.error`. -/
def packU32 (v : ℕ) : Option (List ℕ) :=
  if v < 4294967296 then some (u32le v) else none

/-- `StreamingTranscriber.create_wav_header`: the 44-byte canonical header
`'<4sI4s4sIHHIIHH4sI'` of `RIFF`, file size, `WAVE`, `fmt `, 16, PCM format
1, 1 channel, sample rate, byte rate, block align 2, 16 bits, `data`, data
size.  `none` models a `struct.error` on an out-of-range field. -/
def create_wav_header (cfg : Config) (num_samples : ℕ) : Option (List ℕ) :=
  let data_size := num_samples * 2
  let file_size := data_size + 36
  (packU32 file_size).bind fun b_filesize =>
  (packU32 16).bind fun b_fmtlen =>
  (packU16 1).bind fun b_audiofmt =>
  (packU16 1).bind fun b_channels =>
  (packU32 cfg.sample_rate).bind fun b_rate =>
  (packU32 (cfg.sample_rate * 2)).bind fun b_byterate =>
  (packU16 2).bind fun b_align =>
  (packU16 16).bind fun b_bits =>
  (packU32 data_size).map fun b_datasize =>
    [82, 73, 70, 70] ++ b_filesize ++ [87, 65, 86, 69] ++
    [102, 109, 116, 32] ++ b_fmtlen ++ b_audiofmt ++ b_channels ++
    b_rate ++ b_byterate ++ b_align ++ b_bits ++
    [100, 97, 116, 97] ++ b_datasize

/-- Read a little-endian 16-bit value at byte offset `i`. -/
def readU16 (l : List ℕ) (i : ℕ) : ℕ := l.getD i 0 + 256 * l.getD (i + 1) 0

/-- Read a little-endian 32-bit value at byte offset `i`. -/
def readU32 (l : List ℕ) (i : ℕ) : ℕ :=
  l.getD i 0 + 256 * l.getD (i + 1) 0 + 65536 * l.getD (i + 2) 0 +
    16777216 * l.getD (i + 3) 0

/-- The bytes of a string under the `.encode()` in the Python source. -/
def encodeStr (s : String) : List ℕ := s.toUTF8.toList.map (fun b => b.toNat)

/-- `StreamingTranscriber.create_multipart_stream`: concatenate the chunks,
prefix the WAV header, and build the multipart form body with the fixed
boundary.  `none` models the `struct.error` a too-large sample count
raises inside `create_wav_header`. -/
def create_multipart_stream (cfg : Config) (audio_chunks : List (List ℕ)) :
    Option (List ℕ × String) :=
  let boundary := "----WebKitFormBoundary7MA4YWxkTrZu0gW"
  let raw_audio := audio_chunks.flatten
  let total_samples := raw_audio.length / 2
  (create_wav_header cfg total_samples).map fun wav_header =>
    let audio_data := wav_header ++ raw_audio
    let part_file :=
      encodeStr ("--" ++ boundary ++ "\r\n" ++
        "Content-Disposition: form-data; name=\"file\"; filename=\"audio.wav\"\r\n" ++
        "Content-Type: audio/wav\r\n\r\n")
    let fd1 := part_file ++ audio_data
    let fd2 := fd1 ++ encodeStr ("\r\n--" ++ boundary ++ "\r\n") ++
      encodeStr ("Content-Disposition: form-data; name=\"language\"\r\n\r\n" ++ cfg.language)
    let fd3 := fd2 ++ encodeStr ("\r\n--" ++ boundary ++ "\r\n") ++
      encodeStr ("Content-Disposition: form-data; name=\"temperature\"\r\n\r\n" ++ cfg.temperature)
    let fd4 :=
      match cfg.initial_prompt with
      | some p =>
        if p ≠ "" then
          fd3 ++ encodeStr ("\r\n--" ++ boundary ++ "\r\n") ++
            encodeStr ("Content-Disposition: form-data; name=\"initial_prompt\"\r\n\r\n" ++ p)
        else fd3
      | none => fd3
    (fd4 ++ encodeStr ("\r\n--" ++ boundary ++ "--\r\n"), boundary)

/-! ## Text sanitizer -/

/-- The whitespace characters Python's `\s` and `str.strip()` recognise on
the ASCII range handled here. -/
def isSpace (c : Char) : Bool :=
  c = ' ' ∨ c = '\t' ∨ c = '\n' ∨ c = '\x0d' ∨ c = '\x0b' ∨ c = '\x0c'

/-- The leading-marker glyph class of `clean_transcription`'s first regex. -/
def markerChars : List Char :=
  ['>', '-', '•', '·', '※', '◆', '◇', '■', '□', '▪', '▫', '★', '☆', '♦', '♣', '♠', '♥']

/-- `re.sub(r'^[>\-...]+\s*', '', text)`: one anchored match of at least one
marker glyph followed by greedy whitespace, removed. -/
def stripLeadingMarkers (cs : List Char) : List Char :=
  let rest := cs.dropWhile (fun c => decide (c ∈ markerChars))
  if rest.length = cs.length then cs else rest.dropWhile isSpace

/-- Position of the first occurrence of `close` before any newline, as the
regex fragment `.*?x` (with `.` not matching a newline) finds it. -/
def findClose (close : Char) : List Char → Option ℕ
  | [] => none
  | c :: rest =>
    if c = close then some 0
    else if c = '\n' then none
    else (findClose close rest).map (· + 1)

/-- The scanning loop of `re.sub(r'\[.*?\]|\(.*?\)', '', text)`.  The fuel
argument only bounds the recursion depth: every call consumes at least one
character, so `fuel = length` never runs out. -/
def removeBracketsAux : ℕ → List Char → List Char
  | 0, l => l
  | _, [] => []
  | fuel + 1, c :: rest =>
    if c = '[' then
      match findClose ']' rest with
      | some i => removeBracketsAux fuel (rest.drop (i + 1))
      | none => c :: removeBracketsAux fuel rest
    else if c = '(' then
      match findClose ')' rest with
      | some i => removeBracketsAux fuel (rest.drop (i + 1))
      | none => c :: removeBracketsAux fuel rest
    else c :: removeBracketsAux fuel rest

/-- `re.sub(r'\[.*?\]|\(.*?\)', '', text)`: left-to-right removal of each
shortest bracketed or parenthesised span that closes before a newline. -/
def removeBrackets (cs : List Char) : List Char := removeBracketsAux cs.length cs

/-- The scanning loop of `re.sub(r'\s+', ' ', text)`; as above the fuel
argument never runs out on `fuel = length`. -/
def collapseSpacesAux : ℕ → List Char → List Char
  | 0, l => l
  | _, [] => []
  | fuel + 1, c :: rest =>
    if isSpace c then ' ' :: collapseSpacesAux fuel (rest.dropWhile isSpace)
    else c :: collapseSpacesAux fuel rest

/-- `re.sub(r'\s+', ' ', text)`: each maximal whitespace run becomes one
space. -/
def collapseSpaces (cs : List Char) : List Char := collapseSpacesAux cs.length cs

/-- Python `str.strip()`. -/
def pyStrip (cs : List Char) : List Char :=
  ((cs.dropWhile isSpace).reverse.dropWhile isSpace).reverse

/-- `StreamingTranscriber.clean_transcription` on the character list of the
input string. -/
def clean_transcription (text : List Char) : List Char :=
  let t1 := stripLeadingMarkers text
  let t2 := removeBrackets t1
  let t3 := collapseSpaces t2
  let t4 := pyStrip t3
  if t4.length < 2 ∧ t4 ∉ [['I'], ['a'], ['A']] then [] else t4

/-! ## Transcription client -/

/-- The shape of the transcription server's reply body, as far as
`transcribe_audio` inspects it: `invalid` makes `response.json()` raise,
`missingText` is a JSON object without a `text` key (so `get` yields `''`),
`nonStringText` makes `.strip()` raise, and `withText` carries the string
value of the `text` field. -/
inductive JsonBody
  | invalid
  | missingText
  | nonStringText
  | withText (s : List Char)

/-- The observable part of the HTTP reply `requests.post` returns. -/
structure HttpResponse where
  status : ℕ
  body : JsonBody

/-- The `text = result.get('text', '').strip(); if text: clean; return text
if text else None` tail of `transcribe_audio`. -/
def handleText (raw : List Char) : Option (List Char) :=
  let text := pyStrip raw
  if text = [] then none
  else
    let cleaned := clean_transcription text
    if cleaned = [] then none else some cleaned

/-- `StreamingTranscriber.transcribe_audio`, with the network abstracted as
the received `HttpResponse`.  Every exception inside the `try` block
(multipart assembly, JSON parsing, field access) is caught and mapped to
`None`, as is every non-200 status; so the function is total and `none` is
its only failure mode. -/
def transcribe_audio (cfg : Config) (audio_chunks : List (List ℕ))
    (resp : HttpResponse) : Option (List Char) :=
  if audio_chunks = [] then none
  else
    match create_multipart_stream cfg audio_chunks with
    | none => none
    | some _ =>
      if resp.status = 200 then
        match resp.body with
        | .invalid => none
        | .missingText => handleText []
        | .nonStringText => none
        | .withText s => handleText s
      else none

/-! ## Concrete instances used by witnesses and counterexamples

Every numeric literal below (`1/4`, `3/2`, `1/20`, …) is exactly
representable as an IEEE-754 double, and every derived quantity
(`int(1.0/0.25) = 4`, `int(1.5*10) = 15`, …) is float-exact, so the
rational model and CPython agree on these configurations. -/

/-- A loud chunk: one full-scale sample `32767` (bytes `ff 7f`). -/
def tChunk : List ℕ := [255, 127]

/-- A silent chunk: one zero sample. -/
def sChunk : List ℕ := [0, 0]

/-- `StreamingTranscriber(silence_threshold=0.05, silence_duration=1.5,
chunk_duration=0.25, pre_buffer=0.0)`. -/
noncomputable def cfgA : Config :=
  { silence_threshold := 1/20, silence_duration := 3/2, sample_rate := 16000,
    pre_buffer_duration := 0, language := "en", initial_prompt := none,
    temperature := "0.0", chunk_duration := 1/4 }

/-- `StreamingTranscriber(silence_threshold=0.05, silence_duration=0.75,
chunk_duration=0.5, pre_buffer=0.0)`. -/
noncomputable def cfgB : Config :=
  { silence_threshold := 1/20, silence_duration := 3/4, sample_rate := 16000,
    pre_buffer_duration := 0, language := "en", initial_prompt := none,
    temperature := "0.0", chunk_duration := 1/2 }

/-- `StreamingTranscriber(silence_threshold=0.05, silence_duration=1.0,
chunk_duration=0.5, pre_buffer=1.0)`. -/
noncomputable def cfgW : Config :=
  { silence_threshold := 1/20, silence_duration := 1, sample_rate := 16000,
    pre_buffer_duration := 1, language := "en", initial_prompt := none,
    temperature := "0.0", chunk_duration := 1/2 }

/-! ## Basic lemmas about the embedded primitives -/

theorem pyInt_of_nonneg {q : ℚ} (h : 0 ≤ q) : pyInt q = ⌊q⌋ := by
  simp [pyInt, h]

theorem pyInt_nonneg {q : ℚ} (h : 0 ≤ q) : 0 ≤ pyInt q := by
  rw [pyInt_of_nonneg h]; exact Int.floor_nonneg.mpr h

theorem pyInt_cast_le {q : ℚ} (h : 0 ≤ q) : (pyInt q : ℚ) ≤ q := by
  rw [pyInt_of_nonneg h]; exact Int.floor_le q

theorem lt_pyInt_add_one {q : ℚ} (h : 0 ≤ q) : q < pyInt q + 1 := by
  rw [pyInt_of_nonneg h]; exact_mod_cast Int.lt_floor_add_one q

theorem le_pyInt {q : ℚ} {z : ℤ} (h0 : 0 ≤ q) (h : (z : ℚ) ≤ q) : z ≤ pyInt q := by
  rw [pyInt_of_nonneg h0]; exact Int.le_floor.mpr h

theorem ge_of_pyInt_ge {q : ℚ} {z : ℤ} (hz : 1 ≤ z) (h : z ≤ pyInt q) : (z : ℚ) ≤ q := by
  rcases le_or_lt 0 q with h0 | h0
  · calc (z : ℚ) ≤ (pyInt q : ℚ) := by exact_mod_cast h
      _ ≤ q := pyInt_cast_le h0
  · exfalso
    have : pyInt q = ⌈q⌉ := by simp [pyInt, not_le.mpr h0]
    have hle : pyInt q ≤ 0 := by
      rw [this]; exact Int.ceil_le.mpr (by exact_mod_cast h0.le)
    omega

theorem takeLastN_length (n : ℕ) (l : List α) :
    (takeLastN n l).length = min n l.length := by
  simp [takeLastN]; omega

@[simp] theorem takeLastN_nil (n : ℕ) : takeLastN n ([] : List α) = [] := by
  simp [takeLastN]

theorem takeLastN_eq_self {n : ℕ} {l : List α} (h : l.length ≤ n) :
    takeLastN n l = l := by
  have : l.length - n = 0 := by omega
  simp [takeLastN, this]

/-- Pushing onto a bounded deque commutes with having already bounded the
backlog: the deque only ever remembers the last `k` elements. -/
theorem dequePush_takeLastN (k : ℕ) (l : List α) (c : α) :
    takeLastN k (takeLastN k l ++ [c]) = takeLastN k (l ++ [c]) := by
  rcases Nat.eq_zero_or_pos k with hk | hk
  · subst hk
    simp only [takeLastN, Nat.sub_zero]
    rw [List.drop_length, List.drop_length]
  · rcases le_or_lt l.length k with hn | hn
    · rw [takeLastN_eq_self hn]
    · have hlen : (l.drop (l.length - k)).length = k := by
        rw [List.length_drop]; omega
      unfold takeLastN
      rw [List.length_append, List.length_append, hlen]
      simp only [List.length_cons, List.length_nil]
      have h1 : k + 1 - k = 1 := by omega
      rw [h1]
      have h2 : (1 : ℕ) ≤ (l.drop (l.length - k)).length := by omega
      rw [List.drop_append_of_le_length h2, List.drop_drop]
      have h3 : l.length + 1 - k ≤ l.length := by omega
      rw [List.drop_append_of_le_length h3]
      have h4 : l.length - k + 1 = l.length + 1 - k := by omega
      rw [h4]

theorem dequePush_length_le (cap : ℤ) (buf : List α) (c : α) :
    (dequePush cap buf c).length ≤ cap.toNat := by
  rw [dequePush, takeLastN_length]; omega

/-! ## Evaluation and counting lemmas for the loudness meter and VAD -/

theorem countSilent_nil (cfg : Config) : countSilent cfg [] = some 0 := rfl

theorem countSilent_cons {cfg : Config} {c : List ℕ} {l : List (List ℕ)} {r : ℝ} {n : ℕ}
    (hc : calculate_rms c = some r) (hl : countSilent cfg l = some n) :
    countSilent cfg (c :: l) =
      some ((if r ≤ cfg.silence_threshold then 1 else 0) + n) := by
  simp [countSilent, hc, hl]

theorem countSilent_le_length {cfg : Config} :
    ∀ {l : List (List ℕ)} {n : ℕ}, countSilent cfg l = some n → n ≤ l.length := by
  intro l
  induction l with
  | nil =>
    intro n h
    rw [countSilent_nil] at h
    injection h with h
    omega
  | cons c rest ih =>
    intro n h
    simp only [countSilent, Option.bind_eq_some, Option.map_eq_some'] at h
    obtain ⟨r, _, m, hm, rfl⟩ := h
    have := ih hm
    by_cases hr : r ≤ cfg.silence_threshold <;> simp [hr] <;> omega

theorem countSilent_lt_of_loud_mem {cfg : Config} {x : List ℕ} {r : ℝ}
    (hx : calculate_rms x = some r) (hloud : ¬ r ≤ cfg.silence_threshold) :
    ∀ {l : List (List ℕ)} {n : ℕ}, x ∈ l → countSilent cfg l = some n →
      n + 1 ≤ l.length := by
  intro l
  induction l with
  | nil => intro n h; simp at h
  | cons c rest ih =>
    intro n hmem h
    simp only [countSilent, Option.bind_eq_some, Option.map_eq_some'] at h
    obtain ⟨r', hr', m, hm, rfl⟩ := h
    rcases List.mem_cons.mp hmem with rfl | hmem'
    · rw [hx] at hr'
      injection hr' with hr'
      subst hr'
      have := countSilent_le_length hm
      simp [hloud]; omega
    · have := ih hmem' hm
      by_cases hr : r' ≤ cfg.silence_threshold <;> simp [hr] <;> omega

theorem detect_silence_of_lt {cfg : Config} {chunks : List (List ℕ)}
    (h : (chunks.length : ℤ) < required_chunks cfg) :
    detect_silence cfg chunks = some false := by
  simp [detect_silence, h]

theorem detect_silence_of_ge {cfg : Config} {chunks : List (List ℕ)} {n : ℕ}
    (h : ¬ (chunks.length : ℤ) < required_chunks cfg)
    (hn : countSilent cfg (pySliceFromNeg chunks (required_chunks cfg)) = some n)
    (hne : (pySliceFromNeg chunks (required_chunks cfg)).length ≠ 0) :
    detect_silence cfg chunks =
      some (decide ((85/100 : ℚ) ≤
        (n : ℚ) / ((pySliceFromNeg chunks (required_chunks cfg)).length : ℚ))) := by
  simp [detect_silence, h, hn, hne]

theorem detect_silence_true_elim {cfg : Config} {chunks : List (List ℕ)}
    (h : detect_silence cfg chunks = some true) :
    required_chunks cfg ≤ (chunks.length : ℤ) ∧
    ∃ n, countSilent cfg (pySliceFromNeg chunks (required_chunks cfg)) = some n ∧
      (pySliceFromNeg chunks (required_chunks cfg)).length ≠ 0 ∧
      17 * (pySliceFromNeg chunks (required_chunks cfg)).length ≤ 20 * n := by
  by_cases hlt : (chunks.length : ℤ) < required_chunks cfg
  · rw [detect_silence_of_lt hlt] at h; simp at h
  · refine ⟨not_lt.mp hlt, ?_⟩
    simp only [detect_silence, hlt, if_false] at h
    rcases hcs : countSilent cfg (pySliceFromNeg chunks (required_chunks cfg)) with _ | n
    · rw [hcs] at h; simp at h
    · rw [hcs] at h
      simp only [Option.some_bind] at h
      by_cases hne : (pySliceFromNeg chunks (required_chunks cfg)).length = 0
      · simp [hne] at h
      · refine ⟨n, rfl, hne, ?_⟩
        simp only [hne, if_false, Option.some_inj] at h
        have hq : (85/100 : ℚ) ≤
            (n : ℚ) / ((pySliceFromNeg chunks (required_chunks cfg)).length : ℚ) :=
          of_decide_eq_true h
        set L := (pySliceFromNeg chunks (required_chunks cfg)).length with hL
        have hLpos : 0 < (L : ℚ) := by
          have : 0 < L := Nat.pos_of_ne_zero hne
          exact_mod_cast this
        rw [le_div_iff₀ hLpos] at hq
        have : (17 * L : ℚ) ≤ (20 * n : ℚ) := by linarith
        exact_mod_cast this

/-! ## Step-level transition lemmas for the run loop -/

theorem step_idle_loud {cfg : Config} {s : RunState} {c : List ℕ} {r : ℝ}
    (hrec : s.recording = false) (hc : calculate_rms c = some r)
    (hr : cfg.silence_threshold < r) :
    step cfg s c = some (⟨true, s.pre_buffer ++ [c], s.pre_buffer⟩, none) := by
  simp [step, hc, hrec, hr]

theorem step_idle_quiet {cfg : Config} {s : RunState} {c : List ℕ} {r : ℝ}
    (hrec : s.recording = false) (hc : calculate_rms c = some r)
    (hr : ¬ cfg.silence_threshold < r) :
    step cfg s c =
      some (⟨false, s.audio_chunks,
        dequePush (pre_buffer_size cfg) s.pre_buffer c⟩, none) := by
  simp [step, hc, hrec, hr]

theorem step_rec_short {cfg : Config} {s : RunState} {c : List ℕ} {r : ℝ}
    (hrec : s.recording = true) (hc : calculate_rms c = some r)
    (hlen : ¬ min_recording_chunks cfg < ((s.audio_chunks ++ [c]).length : ℤ)) :
    step cfg s c = some (⟨true, s.audio_chunks ++ [c], s.pre_buffer⟩, none) := by
  have hlen' : ¬ min_recording_chunks cfg < (s.audio_chunks.length : ℤ) + 1 := by
    simpa using hlen
  simp [step, hc, hrec, hlen']

theorem step_rec_nofire {cfg : Config} {s : RunState} {c : List ℕ} {r : ℝ}
    (hrec : s.recording = true) (hc : calculate_rms c = some r)
    (hlen : min_recording_chunks cfg < ((s.audio_chunks ++ [c]).length : ℤ))
    (hdet : detect_silence cfg (s.audio_chunks ++ [c]) = some false) :
    step cfg s c = some (⟨true, s.audio_chunks ++ [c], s.pre_buffer⟩, none) := by
  have hlen' : min_recording_chunks cfg < (s.audio_chunks.length : ℤ) + 1 := by
    simpa using hlen
  simp [step, hc, hrec, hlen', hdet]

theorem step_rec_fire {cfg : Config} {s : RunState} {c : List ℕ} {r : ℝ}
    (hrec : s.recording = true) (hc : calculate_rms c = some r)
    (hlen : min_recording_chunks cfg < ((s.audio_chunks ++ [c]).length : ℤ))
    (hdet : detect_silence cfg (s.audio_chunks ++ [c]) = some true) :
    step cfg s c = some (⟨false, [], []⟩,
      some (if silence_chunks_to_remove cfg + pre_buffer_size cfg <
              ((s.audio_chunks ++ [c]).length : ℤ) then
              (s.audio_chunks ++ [c]).take
                ((s.audio_chunks ++ [c]).length - (silence_chunks_to_remove cfg).toNat)
            else s.audio_chunks ++ [c])) := by
  have hlen' : min_recording_chunks cfg < (s.audio_chunks.length : ℤ) + 1 := by
    simpa using hlen
  simp [step, hc, hrec, hlen', hdet]

theorem runLoop_nil (cfg : Config) (s : RunState) :
    runLoop cfg s [] = ⟨s, [], false⟩ := rfl

theorem runLoop_cons_some {cfg : Config} {s s' : RunState} {c : List ℕ}
    {out : Option (List (List ℕ))} (rest : List (List ℕ))
    (h : step cfg s c = some (s', out)) :
    runLoop cfg s (c :: rest) =
      ⟨(runLoop cfg s' rest).final,
        out.toList ++ (runLoop cfg s' rest).spans,
        (runLoop cfg s' rest).errored⟩ := by
  simp [runLoop, h]

theorem runLoop_cons_none {cfg : Config} {s : RunState} {c : List ℕ}
    (rest : List (List ℕ)) (h : step cfg s c = none) :
    runLoop cfg s (c :: rest) = ⟨s, [], true⟩ := by
  simp [runLoop, h]

/-! ## Loudness meter: sample bounds and concrete evaluations -/

theorem unpackSamples_bounds :
    ∀ l : List ℕ, ∀ s ∈ unpackSamples l, -32768 ≤ s ∧ s ≤ 32767 := by
  intro l
  induction l using unpackSamples.induct with
  | case1 b0 b1 rest ih =>
    intro s hs
    rw [unpackSamples] at hs
    rcases List.mem_cons.mp hs with rfl | hs'
    · unfold toSigned16
      have h := Nat.mod_lt (b0 + 256 * b1) (show 0 < 65536 by norm_num)
      split_ifs with h1 <;> omega
    · exact ih s hs'
  | case2 l h => intro s hs; simp [unpackSamples] at hs

theorem unpackSamples_zero :
    ∀ l : List ℕ, (∀ b ∈ l, b = 0) → ∀ s ∈ unpackSamples l, s = 0 := by
  intro l
  induction l using unpackSamples.induct with
  | case1 b0 b1 rest ih =>
    intro hb s hs
    rw [unpackSamples] at hs
    have h0 : b0 = 0 := hb b0 (by simp)
    have h1 : b1 = 0 := hb b1 (by simp)
    rcases List.mem_cons.mp hs with rfl | hs'
    · subst h0; subst h1; simp [toSigned16]
    · exact ih (fun b hb' => hb b (by simp [hb'])) s hs'
  | case2 l h => intro _ s hs; simp [unpackSamples] at hs

theorem mean_square_of_nonneg (samples : List ℤ) : 0 ≤ mean_square_of samples := by
  unfold mean_square_of
  apply div_nonneg
  · have : (0 : ℤ) ≤ (samples.map (fun s => s * s)).sum :=
      List.sum_nonneg (by
        intro x hx
        obtain ⟨s, _, rfl⟩ := List.mem_map.mp hx
        exact mul_self_nonneg s)
    exact_mod_cast this
  · exact_mod_cast Nat.zero_le samples.length

theorem mean_square_of_le (samples : List ℤ)
    (hb : ∀ s ∈ samples, -32768 ≤ s ∧ s ≤ 32767) :
    mean_square_of samples ≤ 1073741824 := by
  rcases Nat.eq_zero_or_pos samples.length with h0 | hpos
  · have : samples = [] := List.eq_nil_of_length_eq_zero h0
    subst this
    simp [mean_square_of]
  · unfold mean_square_of
    have hsum : (samples.map (fun s => s * s)).sum ≤ (samples.length : ℤ) * 1073741824 := by
      have hall : ∀ x ∈ samples.map (fun s => s * s), x ≤ 1073741824 := by
        intro x hx
        obtain ⟨s, hsmem, rfl⟩ := List.mem_map.mp hx
        obtain ⟨hlo, hhi⟩ := hb s hsmem
        nlinarith
      calc (samples.map (fun s => s * s)).sum
          ≤ (samples.map (fun s => s * s)).length • (1073741824 : ℤ) :=
            List.sum_le_card_nsmul _ _ hall
        _ = (samples.length : ℤ) * 1073741824 := by
            simp [List.length_map, nsmul_eq_mul]
    rw [div_le_iff₀ (by exact_mod_cast hpos : (0:ℚ) < (samples.length : ℚ))]
    have hc : (((samples.map (fun s => s * s)).sum : ℤ) : ℚ) ≤
        (samples.length : ℚ) * 1073741824 := by exact_mod_cast hsum
    linarith

/-- The value of `calculate_rms` on a buffer that passes both length
checks. -/
theorem calculate_rms_eval {chunk : List ℕ} (h1 : ¬ chunk.length < 2)
    (h2 : 2 * (chunk.length / 2) = chunk.length) :
    calculate_rms chunk =
      if unpackSamples chunk = [] then some 0
      else some (Real.sqrt ((mean_square_of (unpackSamples chunk) : ℚ) : ℝ) / 32768) := by
  rw [calculate_rms, if_neg h1, if_neg (not_not_intro h2)]

theorem calculate_rms_nonneg {chunk : List ℕ} {r : ℝ}
    (h : calculate_rms chunk = some r) : 0 ≤ r := by
  by_cases h1 : chunk.length < 2
  · rw [calculate_rms, if_pos h1] at h
    injection h with h; subst h; norm_num
  · by_cases h2 : 2 * (chunk.length / 2) = chunk.length
    · rw [calculate_rms_eval h1 h2] at h
      by_cases h3 : unpackSamples chunk = []
      · rw [if_pos h3] at h; injection h with h; subst h; norm_num
      · rw [if_neg h3] at h; injection h with h; subst h; positivity
    · rw [calculate_rms, if_neg h1, if_pos h2] at h
      cases h

theorem calculate_rms_le_one {chunk : List ℕ} {r : ℝ}
    (h : calculate_rms chunk = some r) : r ≤ 1 := by
  by_cases h1 : chunk.length < 2
  · rw [calculate_rms, if_pos h1] at h
    injection h with h; subst h; norm_num
  · by_cases h2 : 2 * (chunk.length / 2) = chunk.length
    · rw [calculate_rms_eval h1 h2] at h
      by_cases h3 : unpackSamples chunk = []
      · rw [if_pos h3] at h; injection h with h; subst h; norm_num
      · rw [if_neg h3] at h
        injection h with h
        subst h
        rw [div_le_one (by norm_num : (0:ℝ) < 32768)]
        have hmean : mean_square_of (unpackSamples chunk) ≤ 1073741824 :=
          mean_square_of_le _ (unpackSamples_bounds chunk)
        calc Real.sqrt ((mean_square_of (unpackSamples chunk) : ℚ) : ℝ)
            ≤ Real.sqrt 1073741824 := by
              apply Real.sqrt_le_sqrt
              exact_mod_cast hmean
          _ = 32768 := by
              rw [show (1073741824 : ℝ) = 32768 ^ 2 by norm_num]
              exact Real.sqrt_sq (by norm_num)
    · rw [calculate_rms, if_neg h1, if_pos h2] at h
      cases h

theorem calculate_rms_pair (b0 b1 : ℕ) :
    calculate_rms [b0, b1] =
      some (Real.sqrt
        (((toSigned16 (b0 + 256 * b1) * toSigned16 (b0 + 256 * b1) : ℤ) : ℚ) : ℝ)
        / 32768) := by
  have hs : unpackSamples [b0, b1] = [toSigned16 (b0 + 256 * b1)] := rfl
  rw [calculate_rms_eval (by simp) (by simp), hs]
  rw [if_neg (by simp : ¬ ([toSigned16 (b0 + 256 * b1)] : List ℤ) = [])]
  norm_num [mean_square_of]

theorem calculate_rms_silent_pair : calculate_rms [0, 0] = some 0 := by
  rw [calculate_rms_pair]
  norm_num [toSigned16, Real.sqrt_zero]

theorem calculate_rms_loud_pair :
    calculate_rms [255, 127] = some (32767 / 32768) := by
  rw [calculate_rms_pair]
  have h1 : toSigned16 (255 + 256 * 127) = 32767 := by norm_num [toSigned16]
  rw [h1]
  have h2 : ((32767 * 32767 : ℤ) : ℚ) = ((32767 : ℚ) ^ 2) := by norm_num
  rw [h2]
  have h3 : (((32767 : ℚ) ^ 2 : ℚ) : ℝ) = (32767 : ℝ) ^ 2 := by push_cast; ring
  rw [h3, Real.sqrt_sq (by norm_num : (0:ℝ) ≤ 32767)]

/-! ## Encoder lemmas -/

theorem mean_square_of_zeros {samples : List ℤ} (h : ∀ s ∈ samples, s = 0) :
    mean_square_of samples = 0 := by
  unfold mean_square_of
  have : (samples.map (fun s => s * s)).sum = 0 := by
    apply List.sum_eq_zero
    intro x hx
    obtain ⟨s, hsmem, rfl⟩ := List.mem_map.mp hx
    rw [h s hsmem]; ring
  rw [this]
  simp

theorem packU16_eval {v : ℕ} (h : v < 65536) : packU16 v = some (u16le v) :=
  if_pos h

theorem packU32_eval {v : ℕ} (h : v < 4294967296) : packU32 v = some (u32le v) :=
  if_pos h

theorem create_wav_header_eval (cfg : Config) (n : ℕ)
    (hfs : n * 2 + 36 < 4294967296) (hbr : cfg.sample_rate * 2 < 4294967296) :
    create_wav_header cfg n = some
      ([82, 73, 70, 70] ++ u32le (n * 2 + 36) ++ [87, 65, 86, 69] ++
       [102, 109, 116, 32] ++ u32le 16 ++ u16le 1 ++ u16le 1 ++
       u32le cfg.sample_rate ++ u32le (cfg.sample_rate * 2) ++ u16le 2 ++
       u16le 16 ++ [100, 97, 116, 97] ++ u32le (n * 2)) := by
  have hsr : cfg.sample_rate < 4294967296 := by omega
  simp only [create_wav_header]
  rw [packU32_eval (v := n * 2 + 36) (by omega),
      packU32_eval (v := 16) (by norm_num),
      packU16_eval (v := 1) (by norm_num),
      packU32_eval (v := cfg.sample_rate) hsr,
      packU32_eval (v := cfg.sample_rate * 2) hbr,
      packU16_eval (v := 2) (by norm_num),
      packU16_eval (v := 16) (by norm_num),
      packU32_eval (v := n * 2) (by omega)]
  simp only [Option.some_bind, Option.map_some']

theorem readU32_cons (a b c d : ℕ) (rest : List ℕ) :
    readU32 (a :: b :: c :: d :: rest) 0 = a + 256 * b + 65536 * c + 16777216 * d :=
  rfl

theorem readU16_cons (a b : ℕ) (rest : List ℕ) :
    readU16 (a :: b :: rest) 0 = a + 256 * b := rfl

theorem getD_append_skip (pre l : List ℕ) (k : ℕ) :
    (pre ++ l).getD (pre.length + k) 0 = l.getD k 0 := by
  simp [List.getD, List.getElem?_append_right (by omega : pre.length ≤ pre.length + k)]

theorem readU32_prefix (pre l : List ℕ) (off : ℕ) (hoff : off = pre.length) :
    readU32 (pre ++ l) off = readU32 l 0 := by
  subst hoff
  unfold readU32
  have e0 := getD_append_skip pre l 0
  have e1 := getD_append_skip pre l 1
  have e2 := getD_append_skip pre l 2
  have e3 := getD_append_skip pre l 3
  rw [Nat.add_zero] at e0
  rw [e0, e1, e2, e3]

theorem readU16_prefix (pre l : List ℕ) (off : ℕ) (hoff : off = pre.length) :
    readU16 (pre ++ l) off = readU16 l 0 := by
  subst hoff
  unfold readU16
  have e0 := getD_append_skip pre l 0
  have e1 := getD_append_skip pre l 1
  rw [Nat.add_zero] at e0
  rw [e0, e1]

theorem readU32_u32le (v : ℕ) (rest : List ℕ) :
    readU32 (u32le v ++ rest) 0 = v := by
  have e : u32le v ++ rest =
      v % 256 :: (v / 256 % 256 :: (v / 65536 % 256 :: (v / 16777216 :: rest))) := by
    simp [u32le]
  rw [e, readU32_cons]
  omega

theorem readU16_u16le (v : ℕ) (rest : List ℕ) :
    readU16 (u16le v ++ rest) 0 = v := by
  have e : u16le v ++ rest = v % 256 :: (v / 256 :: rest) := by simp [u16le]
  rw [e, readU16_cons]
  omega

theorem readU32_u32le_nil (v : ℕ) : readU32 (u32le v) 0 = v := by
  have h := readU32_u32le v []
  simpa using h

/-! ## Claims -/

/-- Claim C7: for every byte buffer of even length interpreted as
little-endian 16-bit signed samples, `calculate_rms` returns
`sqrt(mean of squared samples) / 32768`, a value in `[0, 1]`; a buffer with
fewer than one full sample (length < 2) yields `0.0`, and an all-zero
buffer (within the domain where the function returns) yields exactly
`0.0`. -/
theorem c7_calculate_rms_spec (chunk : List ℕ) :
    (2 ≤ chunk.length → chunk.length % 2 = 0 →
      calculate_rms chunk = some (Real.sqrt ((mean_square chunk : ℚ) : ℝ) / 32768)) ∧
    (chunk.length < 2 → calculate_rms chunk = some 0) ∧
    ((∀ b ∈ chunk, b = 0) → chunk.length % 2 = 0 ∨ chunk.length < 2 →
      calculate_rms chunk = some 0) ∧
    (∀ r, calculate_rms chunk = some r → 0 ≤ r ∧ r ≤ 1) := by
  refine ⟨?_, ?_, ?_, fun r h => ⟨calculate_rms_nonneg h, calculate_rms_le_one h⟩⟩
  · intro hge heven
    have h1 : ¬ chunk.length < 2 := by omega
    have h2 : 2 * (chunk.length / 2) = chunk.length := by omega
    rw [calculate_rms_eval h1 h2]
    by_cases h3 : unpackSamples chunk = []
    · rw [if_pos h3, mean_square, h3, mean_square_of]
      simp [Real.sqrt_zero]
    · rw [if_neg h3, mean_square]
  · intro hlt
    rw [calculate_rms, if_pos hlt]
  · intro hzero hdom
    by_cases h1 : chunk.length < 2
    · rw [calculate_rms, if_pos h1]
    · have heven : chunk.length % 2 = 0 := by
        rcases hdom with h | h
        · exact h
        · omega
      have h2 : 2 * (chunk.length / 2) = chunk.length := by omega
      rw [calculate_rms_eval h1 h2]
      have hms : mean_square_of (unpackSamples chunk) = 0 :=
        mean_square_of_zeros (unpackSamples_zero chunk hzero)
      by_cases h3 : unpackSamples chunk = []
      · rw [if_pos h3]
      · rw [if_neg h3, hms]
        norm_num [Real.sqrt_zero]

/-- Witness for C7 at concrete buffers: the two-byte zero buffer follows the
formula and evaluates to `0.0`, a one-byte buffer yields `0.0`, a four-byte
zero buffer yields `0.0`, and the loud pair's value lies in `[0, 1]`. -/
theorem c7_calculate_rms_witness :
    calculate_rms [0, 0] = some (Real.sqrt ((mean_square [0, 0] : ℚ) : ℝ) / 32768) ∧
    calculate_rms [7] = some 0 ∧
    calculate_rms [0, 0, 0, 0] = some 0 ∧
    (0 ≤ (32767 / 32768 : ℝ) ∧ (32767 / 32768 : ℝ) ≤ 1) :=
  ⟨(c7_calculate_rms_spec [0, 0]).1 (by norm_num) (by norm_num),
   (c7_calculate_rms_spec [7]).2.1 (by norm_num),
   (c7_calculate_rms_spec [0, 0, 0, 0]).2.2.1 (by decide) (Or.inl (by norm_num)),
   (c7_calculate_rms_spec [255, 127]).2.2.2 (32767 / 32768) calculate_rms_loud_pair⟩

/-- Claim C8: for every byte buffer of odd length at least 3,
`calculate_rms` raises a `struct.error` (modelled `none`) instead of
returning a loudness value, and it is total exactly on buffers of even
length or of length below 2. -/
theorem c8_calculate_rms_partiality (chunk : List ℕ) :
    calculate_rms chunk = none ↔ chunk.length % 2 = 1 ∧ 3 ≤ chunk.length := by
  by_cases h1 : chunk.length < 2
  · rw [calculate_rms, if_pos h1]
    simp
    omega
  · by_cases h2 : 2 * (chunk.length / 2) = chunk.length
    · rw [calculate_rms_eval h1 h2]
      by_cases h3 : unpackSamples chunk = [] <;> simp [h3] <;> omega
    · rw [calculate_rms, if_neg h1, if_pos h2]
      simp
      omega

/-- Claim C9 (amended): for every sample count `n` whose derived RIFF
fields fit the 32-bit header fields (`2n + 36 < 2^32`) and every configured
sample rate with `2·rate < 2^32`, decoding the 44-byte header produced by
`create_wav_header` — the data-size field at bytes 40–43 divided by 2, and
the sample-rate field at bytes 24–27 — recovers exactly `n` and the
configured rate, and the header declares mono (bytes 22–23 = 1), 16-bit
(bytes 34–35 = 16) PCM (bytes 20–21 = 1). -/
theorem c9_wav_header_roundtrip (cfg : Config) (n : ℕ)
    (hfs : n * 2 + 36 < 4294967296) (hbr : cfg.sample_rate * 2 < 4294967296) :
    ∃ hdr, create_wav_header cfg n = some hdr ∧ hdr.length = 44 ∧
      readU32 hdr 40 / 2 = n ∧ readU32 hdr 24 = cfg.sample_rate ∧
      readU16 hdr 22 = 1 ∧ readU16 hdr 34 = 16 ∧ readU16 hdr 20 = 1 := by
  refine ⟨_, create_wav_header_eval cfg n hfs hbr, ?_, ?_, ?_, ?_, ?_, ?_⟩
  · simp [u32le, u16le]
  · have e : [82, 73, 70, 70] ++ u32le (n * 2 + 36) ++ [87, 65, 86, 69] ++
        [102, 109, 116, 32] ++ u32le 16 ++ u16le 1 ++ u16le 1 ++
        u32le cfg.sample_rate ++ u32le (cfg.sample_rate * 2) ++ u16le 2 ++
        u16le 16 ++ [100, 97, 116, 97] ++ u32le (n * 2) =
        ([82, 73, 70, 70] ++ u32le (n * 2 + 36) ++ [87, 65, 86, 69] ++
         [102, 109, 116, 32] ++ u32le 16 ++ u16le 1 ++ u16le 1 ++
         u32le cfg.sample_rate ++ u32le (cfg.sample_rate * 2) ++ u16le 2 ++
         u16le 16 ++ [100, 97, 116, 97]) ++ u32le (n * 2) := by
      simp [List.append_assoc]
    rw [e, readU32_prefix _ _ 40 (by simp [u32le, u16le]), readU32_u32le_nil]
    omega
  · have e : [82, 73, 70, 70] ++ u32le (n * 2 + 36) ++ [87, 65, 86, 69] ++
        [102, 109, 116, 32] ++ u32le 16 ++ u16le 1 ++ u16le 1 ++
        u32le cfg.sample_rate ++ u32le (cfg.sample_rate * 2) ++ u16le 2 ++
        u16le 16 ++ [100, 97, 116, 97] ++ u32le (n * 2) =
        ([82, 73, 70, 70] ++ u32le (n * 2 + 36) ++ [87, 65, 86, 69] ++
         [102, 109, 116, 32] ++ u32le 16 ++ u16le 1 ++ u16le 1) ++
        (u32le cfg.sample_rate ++ (u32le (cfg.sample_rate * 2) ++ u16le 2 ++
         u16le 16 ++ [100, 97, 116, 97] ++ u32le (n * 2))) := by
      simp [List.append_assoc]
    rw [e, readU32_prefix _ _ 24 (by simp [u32le, u16le]), readU32_u32le]
  · have e : [82, 73, 70, 70] ++ u32le (n * 2 + 36) ++ [87, 65, 86, 69] ++
        [102, 109, 116, 32] ++ u32le 16 ++ u16le 1 ++ u16le 1 ++
        u32le cfg.sample_rate ++ u32le (cfg.sample_rate * 2) ++ u16le 2 ++
        u16le 16 ++ [100, 97, 116, 97] ++ u32le (n * 2) =
        ([82, 73, 70, 70] ++ u32le (n * 2 + 36) ++ [87, 65, 86, 69] ++
         [102, 109, 116, 32] ++ u32le 16 ++ u16le 1) ++
        (u16le 1 ++ (u32le cfg.sample_rate ++ u32le (cfg.sample_rate * 2) ++
         u16le 2 ++ u16le 16 ++ [100, 97, 116, 97] ++ u32le (n * 2))) := by
      simp [List.append_assoc]
    rw [e, readU16_prefix _ _ 22 (by simp [u32le, u16le]), readU16_u16le]
  · have e : [82, 73, 70, 70] ++ u32le (n * 2 + 36) ++ [87, 65, 86, 69] ++
        [102, 109, 116, 32] ++ u32le 16 ++ u16le 1 ++ u16le 1 ++
        u32le cfg.sample_rate ++ u32le (cfg.sample_rate * 2) ++ u16le 2 ++
        u16le 16 ++ [100, 97, 116, 97] ++ u32le (n * 2) =
        ([82, 73, 70, 70] ++ u32le (n * 2 + 36) ++ [87, 65, 86, 69] ++
         [102, 109, 116, 32] ++ u32le 16 ++ u16le 1 ++ u16le 1 ++
         u32le cfg.sample_rate ++ u32le (cfg.sample_rate * 2) ++ u16le 2) ++
        (u16le 16 ++ ([100, 97, 116, 97] ++ u32le (n * 2))) := by
      simp [List.append_assoc]
    rw [e, readU16_prefix _ _ 34 (by simp [u32le, u16le]), readU16_u16le]
  · have e : [82, 73, 70, 70] ++ u32le (n * 2 + 36) ++ [87, 65, 86, 69] ++
        [102, 109, 116, 32] ++ u32le 16 ++ u16le 1 ++ u16le 1 ++
        u32le cfg.sample_rate ++ u32le (cfg.sample_rate * 2) ++ u16le 2 ++
        u16le 16 ++ [100, 97, 116, 97] ++ u32le (n * 2) =
        ([82, 73, 70, 70] ++ u32le (n * 2 + 36) ++ [87, 65, 86, 69] ++
         [102, 109, 116, 32] ++ u32le 16) ++
        (u16le 1 ++ (u16le 1 ++ u32le cfg.sample_rate ++
         u32le (cfg.sample_rate * 2) ++ u16le 2 ++ u16le 16 ++
         [100, 97, 116, 97] ++ u32le (n * 2))) := by
      simp [List.append_assoc]
    rw [e, readU16_prefix _ _ 20 (by simp [u32le, u16le]), readU16_u16le]

/-- Witness for C9 at `n = 1000`, sample rate 16000. -/
theorem c9_wav_header_witness :
    ∃ hdr, create_wav_header cfgA 1000 = some hdr ∧ hdr.length = 44 ∧
      readU32 hdr 40 / 2 = 1000 ∧ readU32 hdr 24 = cfgA.sample_rate ∧
      readU16 hdr 22 = 1 ∧ readU16 hdr 34 = 16 ∧ readU16 hdr 20 = 1 :=
  c9_wav_header_roundtrip cfgA 1000 (by norm_num) (by norm_num [cfgA])

/-- Counterexample to C9 as stated: at the sample count `n = 2^31` the
data-size field `2n` overflows `struct.pack '<I'`, so `create_wav_header`
raises instead of producing a decodable header — the claim's "every sample
count n ≥ 0" fails. -/
theorem c9_counterexample : create_wav_header cfgA 2147483648 = none := by
  simp only [create_wav_header]
  rw [show packU32 (2147483648 * 2 + 36) = none from if_neg (by norm_num)]
  rfl

/-- Claim C10: for every non-empty chunk list, `transcribe_audio` returns
no transcript (`none`) rather than raising whenever the HTTP status is not
200, the response body is not valid JSON, or the JSON object lacks a `text`
field or its text is empty after cleaning.  In this embedding
`transcribe_audio` is a total function whose only failure value is `none`:
the `try`/`except` in the source catches every exception inside a span's
processing, so the run loop continues to the next span. -/
theorem c10_transcribe_audio_failures (cfg : Config)
    (audio_chunks : List (List ℕ)) (resp : HttpResponse)
    (hne : audio_chunks ≠ []) :
    (resp.status ≠ 200 → transcribe_audio cfg audio_chunks resp = none) ∧
    (resp.body = JsonBody.invalid → transcribe_audio cfg audio_chunks resp = none) ∧
    (resp.body = JsonBody.missingText → transcribe_audio cfg audio_chunks resp = none) ∧
    (∀ s, resp.body = JsonBody.withText s → clean_transcription (pyStrip s) = [] →
      transcribe_audio cfg audio_chunks resp = none) := by
  unfold transcribe_audio
  rw [if_neg hne]
  rcases hm : create_multipart_stream cfg audio_chunks with _ | p
  · exact ⟨fun _ => rfl, fun _ => rfl, fun _ => rfl, fun _ _ _ => rfl⟩
  · by_cases hst : resp.status = 200
    · rw [if_pos hst]
      refine ⟨fun hs => absurd hst hs, ?_, ?_, ?_⟩
      · intro hb; rw [hb]
      · intro hb
        rw [hb]
        show handleText [] = none
        rfl
      · intro s hb hclean
        rw [hb]
        show handleText s = none
        unfold handleText
        by_cases hstrip : pyStrip s = []
        · rw [if_pos hstrip]
        · rw [if_neg hstrip, hclean, if_pos rfl]
    · rw [if_neg hst]
      exact ⟨fun _ => rfl, fun _ => rfl, fun _ => rfl, fun _ _ _ => rfl⟩

/-- Witness for C10: a one-chunk span with a 500 reply, an invalid JSON
body, a missing `text` field, and a `text` that cleans to nothing (the
bracketed annotation `[BLANK_AUDIO]`) all yield `none`. -/
theorem c10_transcribe_audio_witness :
    transcribe_audio cfgA [sChunk] ⟨500, JsonBody.invalid⟩ = none ∧
    transcribe_audio cfgA [sChunk] ⟨200, JsonBody.invalid⟩ = none ∧
    transcribe_audio cfgA [sChunk] ⟨200, JsonBody.missingText⟩ = none ∧
    transcribe_audio cfgA [sChunk]
      ⟨200, JsonBody.withText ("[BLANK_AUDIO]".toList)⟩ = none :=
  ⟨(c10_transcribe_audio_failures cfgA [sChunk] ⟨500, JsonBody.invalid⟩
      (by simp)).1 (by norm_num),
   (c10_transcribe_audio_failures cfgA [sChunk] ⟨200, JsonBody.invalid⟩
      (by simp)).2.1 rfl,
   (c10_transcribe_audio_failures cfgA [sChunk] ⟨200, JsonBody.missingText⟩
      (by simp)).2.2.1 rfl,
   (c10_transcribe_audio_failures cfgA [sChunk]
      ⟨200, JsonBody.withText ("[BLANK_AUDIO]".toList)⟩ (by simp)).2.2.2
      ("[BLANK_AUDIO]".toList) rfl (by decide)⟩

/-! ## Derived configuration constants of the concrete instances -/

theorem cfgA_required : required_chunks cfgA = 6 := by
  norm_num [required_chunks, chunks_per_second, cfgA, pyInt]

theorem cfgA_min : min_recording_chunks cfgA = 1 := by
  norm_num [min_recording_chunks, cfgA, pyInt]

theorem cfgA_cap : pre_buffer_size cfgA = 0 := by
  norm_num [pre_buffer_size, cfgA, pyInt]

theorem cfgA_remove : silence_chunks_to_remove cfgA = 5 := by
  norm_num [silence_chunks_to_remove, cfgA, pyInt]
  decide

theorem rms_sChunk : calculate_rms sChunk = some 0 := calculate_rms_silent_pair

theorem rms_tChunk : calculate_rms tChunk = some (32767 / 32768 : ℝ) :=
  calculate_rms_loud_pair

theorem countSilent_sChunk_cons {cfg : Config} (hq : (0:ℝ) ≤ cfg.silence_threshold)
    {l : List (List ℕ)} {n : ℕ} (h : countSilent cfg l = some n) :
    countSilent cfg (sChunk :: l) = some (n + 1) := by
  rw [countSilent_cons rms_sChunk h, if_pos hq, Nat.add_comm]

theorem countSilent_tChunk_cons {cfg : Config}
    (hq : ¬ (32767 / 32768 : ℝ) ≤ cfg.silence_threshold)
    {l : List (List ℕ)} {n : ℕ} (h : countSilent cfg l = some n) :
    countSilent cfg (tChunk :: l) = some n := by
  rw [countSilent_cons rms_tChunk h, if_neg hq, Nat.zero_add]

/-! ## A concrete run of the loop under `cfgA`

One loud chunk followed by six silent chunks: recording starts at the loud
chunk, silence fires at buffer length 7 (the six-chunk window is entirely
silent), and the trimmer removes `max(1, int(1.5*10)//3) = 5` chunks. -/

theorem cfgA_quiet_le : (0:ℝ) ≤ cfgA.silence_threshold := by norm_num [cfgA]

theorem cfgA_loud_gt : cfgA.silence_threshold < (32767 / 32768 : ℝ) := by
  norm_num [cfgA]

theorem cfgA_loud_not_le : ¬ (32767 / 32768 : ℝ) ≤ cfgA.silence_threshold := by
  norm_num [cfgA]

theorem trace_detect_lt {chunks : List (List ℕ)}
    (h : (chunks.length : ℤ) < 6) : detect_silence cfgA chunks = some false :=
  detect_silence_of_lt (by rw [cfgA_required]; exact h)

theorem trace_count5 :
    countSilent cfgA [sChunk, sChunk, sChunk, sChunk, sChunk] = some 5 := by
  have h := countSilent_sChunk_cons cfgA_quiet_le
    (countSilent_sChunk_cons cfgA_quiet_le
      (countSilent_sChunk_cons cfgA_quiet_le
        (countSilent_sChunk_cons cfgA_quiet_le
          (countSilent_sChunk_cons cfgA_quiet_le (countSilent_nil cfgA)))))
  simpa using h

theorem trace_count6 :
    countSilent cfgA [sChunk, sChunk, sChunk, sChunk, sChunk, sChunk] = some 6 := by
  have h := countSilent_sChunk_cons cfgA_quiet_le trace_count5
  simpa using h

theorem trace_detect6 :
    detect_silence cfgA
      [tChunk, sChunk, sChunk, sChunk, sChunk, sChunk] = some false := by
  have hsl : pySliceFromNeg
      [tChunk, sChunk, sChunk, sChunk, sChunk, sChunk] (required_chunks cfgA) =
      [tChunk, sChunk, sChunk, sChunk, sChunk, sChunk] := by
    rw [cfgA_required]
    simp [pySliceFromNeg, takeLastN]
  have hcount : countSilent cfgA (pySliceFromNeg
      [tChunk, sChunk, sChunk, sChunk, sChunk, sChunk] (required_chunks cfgA)) =
      some 5 := by
    rw [hsl]
    exact countSilent_tChunk_cons cfgA_loud_not_le trace_count5
  have h := @detect_silence_of_ge cfgA
    [tChunk, sChunk, sChunk, sChunk, sChunk, sChunk] 5
    (by rw [cfgA_required]; simp) hcount (by rw [hsl]; simp)
  rw [hsl] at h
  rw [h]
  congr 1
  apply decide_eq_false
  norm_num

theorem trace_detect7 :
    detect_silence cfgA
      [tChunk, sChunk, sChunk, sChunk, sChunk, sChunk, sChunk] = some true := by
  have hsl : pySliceFromNeg
      [tChunk, sChunk, sChunk, sChunk, sChunk, sChunk, sChunk]
      (required_chunks cfgA) =
      [sChunk, sChunk, sChunk, sChunk, sChunk, sChunk] := by
    rw [cfgA_required]
    simp [pySliceFromNeg, takeLastN]
  have hcount : countSilent cfgA (pySliceFromNeg
      [tChunk, sChunk, sChunk, sChunk, sChunk, sChunk, sChunk]
      (required_chunks cfgA)) = some 6 := by
    rw [hsl]; exact trace_count6
  have h := @detect_silence_of_ge cfgA
    [tChunk, sChunk, sChunk, sChunk, sChunk, sChunk, sChunk] 6
    (by rw [cfgA_required]; simp) hcount (by rw [hsl]; simp)
  rw [hsl] at h
  rw [h]
  congr 1
  apply decide_eq_true
  norm_num

theorem trace_st1 :
    step cfgA ⟨false, [], []⟩ tChunk = some (⟨true, [tChunk], []⟩, none) :=
  @step_idle_loud cfgA ⟨false, [], []⟩ tChunk _ rfl rms_tChunk cfgA_loud_gt

theorem trace_st2 :
    step cfgA ⟨true, [tChunk], []⟩ sChunk =
      some (⟨true, [tChunk, sChunk], []⟩, none) :=
  @step_rec_nofire cfgA ⟨true, [tChunk], []⟩ sChunk _
    rfl rms_sChunk (by rw [cfgA_min]; simp) (trace_detect_lt (by simp))

theorem trace_st3 :
    step cfgA ⟨true, [tChunk, sChunk], []⟩ sChunk =
      some (⟨true, [tChunk, sChunk, sChunk], []⟩, none) :=
  @step_rec_nofire cfgA ⟨true, [tChunk, sChunk], []⟩ sChunk _
    rfl rms_sChunk (by rw [cfgA_min]; simp) (trace_detect_lt (by simp))

theorem trace_st4 :
    step cfgA ⟨true, [tChunk, sChunk, sChunk], []⟩ sChunk =
      some (⟨true, [tChunk, sChunk, sChunk, sChunk], []⟩, none) :=
  @step_rec_nofire cfgA ⟨true, [tChunk, sChunk, sChunk], []⟩ sChunk _
    rfl rms_sChunk (by rw [cfgA_min]; simp) (trace_detect_lt (by simp))

theorem trace_st5 :
    step cfgA ⟨true, [tChunk, sChunk, sChunk, sChunk], []⟩ sChunk =
      some (⟨true, [tChunk, sChunk, sChunk, sChunk, sChunk], []⟩, none) :=
  @step_rec_nofire cfgA ⟨true, [tChunk, sChunk, sChunk, sChunk], []⟩ sChunk _
    rfl rms_sChunk (by rw [cfgA_min]; simp) (trace_detect_lt (by simp))

theorem trace_st6 :
    step cfgA ⟨true, [tChunk, sChunk, sChunk, sChunk, sChunk], []⟩ sChunk =
      some (⟨true, [tChunk, sChunk, sChunk, sChunk, sChunk, sChunk], []⟩, none) :=
  @step_rec_nofire cfgA ⟨true, [tChunk, sChunk, sChunk, sChunk, sChunk], []⟩
    sChunk _ rfl rms_sChunk (by rw [cfgA_min]; simp) trace_detect6

theorem trace_st7 :
    step cfgA ⟨true, [tChunk, sChunk, sChunk, sChunk, sChunk, sChunk], []⟩
      sChunk = some (⟨false, [], []⟩, some [tChunk, sChunk]) := by
  have h := @step_rec_fire cfgA
    ⟨true, [tChunk, sChunk, sChunk, sChunk, sChunk, sChunk], []⟩ sChunk _
    rfl rms_sChunk (by rw [cfgA_min]; simp) trace_detect7
  rw [cfgA_remove, cfgA_cap] at h
  rw [h]
  norm_num
  rfl

theorem runA_eval :
    runLoop cfgA initState
      [tChunk, sChunk, sChunk, sChunk, sChunk, sChunk, sChunk] =
      ⟨⟨false, [], []⟩, [[tChunk, sChunk]], false⟩ := by
  show runLoop cfgA ⟨false, [], []⟩ _ = _
  rw [runLoop_cons_some _ trace_st1, runLoop_cons_some _ trace_st2,
      runLoop_cons_some _ trace_st3, runLoop_cons_some _ trace_st4,
      runLoop_cons_some _ trace_st5, runLoop_cons_some _ trace_st6,
      runLoop_cons_some _ trace_st7, runLoop_nil]
  simp

/-! ## Finalization: inversion of a span-producing step -/

/-- A step emits a span only from the Recording state, only when the
minimum-length guard and the silence test pass, and the span is the
trimmed buffer while the state resets completely. -/
theorem step_span_inversion {cfg : Config} {s : RunState} {c : List ℕ}
    {s' : RunState} {span : List (List ℕ)}
    (h : step cfg s c = some (s', some span)) :
    s.recording = true ∧
    min_recording_chunks cfg < ((s.audio_chunks ++ [c]).length : ℤ) ∧
    detect_silence cfg (s.audio_chunks ++ [c]) = some true ∧
    s' = ⟨false, [], []⟩ ∧
    span = (if silence_chunks_to_remove cfg + pre_buffer_size cfg <
              ((s.audio_chunks ++ [c]).length : ℤ) then
              (s.audio_chunks ++ [c]).take
                ((s.audio_chunks ++ [c]).length -
                  (silence_chunks_to_remove cfg).toNat)
            else s.audio_chunks ++ [c]) := by
  simp only [step] at h
  rcases hc : calculate_rms c with _ | r <;> rw [hc] at h
  · exact Option.noConfusion h
  · simp only [Option.some_bind] at h
    split_ifs at h with h1 h2 h3 h4
  -- trigger branch: emits no span
    · injection h with h
      injection h with h5 h6
      exact Option.noConfusion h6
  -- idle pre-buffer branch: emits no span
    · injection h with h
      injection h with h5 h6
      exact Option.noConfusion h6
  -- recording, long enough, trimming guard holds
    · have hrec : s.recording = true := by
        revert h2; cases s.recording <;> simp
      rcases hd : detect_silence cfg (s.audio_chunks ++ [c]) with _ | b <;>
        rw [hd] at h
      · exact Option.noConfusion h
      · simp only [Option.some_bind] at h
        cases b
        · rw [if_neg (by simp)] at h
          injection h with h
          injection h with h5 h6
          exact Option.noConfusion h6
        · rw [if_pos rfl] at h
          injection h with h
          injection h with hs hout
          injection hout with hout
          refine ⟨hrec, h3, rfl, hs.symm, ?_⟩
          rw [if_pos h4]
          exact hout.symm
  -- recording, long enough, trimming guard fails
    · have hrec : s.recording = true := by
        revert h2; cases s.recording <;> simp
      rcases hd : detect_silence cfg (s.audio_chunks ++ [c]) with _ | b <;>
        rw [hd] at h
      · exact Option.noConfusion h
      · simp only [Option.some_bind] at h
        cases b
        · rw [if_neg (by simp)] at h
          injection h with h
          injection h with h5 h6
          exact Option.noConfusion h6
        · rw [if_pos rfl] at h
          injection h with h
          injection h with hs hout
          injection hout with hout
          refine ⟨hrec, h3, rfl, hs.symm, ?_⟩
          rw [if_neg h4]
          exact hout.symm
  -- recording, still below the minimum-length guard: emits no span
    · injection h with h
      injection h with h5 h6
      exact Option.noConfusion h6

theorem silence_chunks_to_remove_pos (cfg : Config) :
    1 ≤ silence_chunks_to_remove cfg := le_max_left _ _

/-- Claim C2 (amended): on every Recording→Idle finalization the trimmer
removes exactly `max(1, int(silence_duration * 10) // 3)` trailing chunks —
the literal constant 10 from the source, not `chunks_per_second` — whenever
the buffer holds more than that count plus `pre_buffer_size` chunks, and
otherwise leaves the buffer untrimmed; a trimmed span always retains more
than `pre_buffer_size` chunks, so trimming never leaves fewer than
`pre_buffer_size` chunks. -/
theorem c2_trim_on_finalize (cfg : Config) (s : RunState) (c : List ℕ)
    (s' : RunState) (span : List (List ℕ)) (hcap : 0 ≤ pre_buffer_size cfg)
    (h : step cfg s c = some (s', some span)) :
    (silence_chunks_to_remove cfg + pre_buffer_size cfg <
        ((s.audio_chunks ++ [c]).length : ℤ) →
      span = (s.audio_chunks ++ [c]).take
        ((s.audio_chunks ++ [c]).length - (silence_chunks_to_remove cfg).toNat) ∧
      (span.length : ℤ) =
        ((s.audio_chunks ++ [c]).length : ℤ) - silence_chunks_to_remove cfg ∧
      pre_buffer_size cfg < (span.length : ℤ)) ∧
    (¬ silence_chunks_to_remove cfg + pre_buffer_size cfg <
        ((s.audio_chunks ++ [c]).length : ℤ) →
      span = s.audio_chunks ++ [c]) := by
  obtain ⟨_, _, _, _, hspan⟩ := step_span_inversion h
  constructor
  · intro hguard
    rw [hspan, if_pos hguard]
    have hR1 : 1 ≤ silence_chunks_to_remove cfg := silence_chunks_to_remove_pos cfg
    have hRn : ((silence_chunks_to_remove cfg).toNat : ℤ) =
        silence_chunks_to_remove cfg := Int.toNat_of_nonneg (by omega)
    have hlen : ((s.audio_chunks ++ [c]).take
        ((s.audio_chunks ++ [c]).length -
          (silence_chunks_to_remove cfg).toNat)).length =
        (s.audio_chunks ++ [c]).length -
          (silence_chunks_to_remove cfg).toNat := by
      rw [List.length_take]
      omega
    refine ⟨rfl, ?_, ?_⟩
    · rw [hlen]
      omega
    · rw [hlen]
      omega
  · intro hguard
    rw [hspan, if_neg hguard]

/-- Witness for C2 at the `cfgA` finalization `trace_st7`: the span is the
buffer minus exactly `silence_chunks_to_remove cfgA = 5` trailing chunks and
keeps more than `pre_buffer_size cfgA = 0` chunks. -/
theorem c2_trim_witness :
    [tChunk, sChunk] =
      ([tChunk, sChunk, sChunk, sChunk, sChunk, sChunk] ++ [sChunk]).take
        (([tChunk, sChunk, sChunk, sChunk, sChunk, sChunk] ++ [sChunk]).length -
          (silence_chunks_to_remove cfgA).toNat) ∧
    ((([tChunk, sChunk] : List (List ℕ)).length : ℤ)) =
      ((([tChunk, sChunk, sChunk, sChunk, sChunk, sChunk] ++ [sChunk]).length : ℤ)) -
        silence_chunks_to_remove cfgA ∧
    pre_buffer_size cfgA < (([tChunk, sChunk] : List (List ℕ)).length : ℤ) :=
  (c2_trim_on_finalize cfgA
      ⟨true, [tChunk, sChunk, sChunk, sChunk, sChunk, sChunk], []⟩ sChunk
      ⟨false, [], []⟩ [tChunk, sChunk] (by simp [cfgA_cap]) trace_st7).1
    (by simp [cfgA_remove, cfgA_cap])

/-- Counterexample to C2 as stated: under
`silence_duration = 1.5, chunk_duration = 0.25` the claim's formula
`max(1, floor(silence_duration * chunks_per_second / 3)) = max(1, 2) = 2`
says 2 trailing chunks are removed, so the 7-chunk finalized buffer would
keep 5; the code removes `max(1, int(1.5 * 10) // 3) = 5` and the emitted
span has 2 chunks. -/
theorem c2_counterexample :
    (runLoop cfgA initState
      [tChunk, sChunk, sChunk, sChunk, sChunk, sChunk, sChunk]).spans =
      [[tChunk, sChunk]] ∧
    ([tChunk, sChunk] : List (List ℕ)).length = 2 ∧
    7 - (max 1 ⌊cfgA.silence_duration * (chunks_per_second cfgA : ℚ) / 3⌋).toNat
      = 5 ∧
    (2 : ℕ) ≠ 5 := by
  refine ⟨by rw [runA_eval], rfl, ?_, by norm_num⟩
  have hcps : chunks_per_second cfgA = 4 := by
    norm_num [chunks_per_second, cfgA, pyInt]
  rw [hcps]
  norm_num [cfgA]
  decide

/-- Claim C1 (amended): let
`R = int(silence_duration * int(1.0 / chunk_duration))` — the floor of the
product with the floored chunks-per-second, which is what the code
computes, not `ceil(silence_duration / chunk_duration)` — and assume
`R ≥ 1`.  Then `detect_silence` returns true exactly when the buffer holds
at least `R` chunks and the fraction of the most recent `R` chunks whose
loudness is at or below `silence_threshold` is at least 0.85
(`17·R ≤ 20·silent`); when fewer chunks exist than `R` it returns false. -/
theorem c1_detect_silence_spec (cfg : Config) (chunks : List (List ℕ)) (n : ℕ)
    (hR : 1 ≤ required_chunks cfg)
    (hcount : countSilent cfg
      (takeLastN (required_chunks cfg).toNat chunks) = some n) :
    (detect_silence cfg chunks = some true ↔
      (required_chunks cfg ≤ (chunks.length : ℤ) ∧
        17 * (required_chunks cfg).toNat ≤ 20 * n)) ∧
    ((chunks.length : ℤ) < required_chunks cfg →
      detect_silence cfg chunks = some false) := by
  have hslice : pySliceFromNeg chunks (required_chunks cfg) =
      takeLastN (required_chunks cfg).toNat chunks := by
    unfold pySliceFromNeg
    rw [if_neg (by omega : ¬ required_chunks cfg ≤ 0)]
  refine ⟨⟨?_, ?_⟩, fun hlt => detect_silence_of_lt hlt⟩
  · intro h
    obtain ⟨hlen, m, hm, hne, hratio⟩ := detect_silence_true_elim h
    rw [hslice, hcount] at hm
    injection hm with hm
    subst hm
    refine ⟨hlen, ?_⟩
    rw [hslice, takeLastN_length] at hratio
    have hRlen : (required_chunks cfg).toNat ≤ chunks.length := by omega
    rw [min_eq_left hRlen] at hratio
    exact hratio
  · rintro ⟨hlen, hratio⟩
    have hge : ¬ (chunks.length : ℤ) < required_chunks cfg := by omega
    have hcount' : countSilent cfg
        (pySliceFromNeg chunks (required_chunks cfg)) = some n := by
      rw [hslice]; exact hcount
    have hRlen : (required_chunks cfg).toNat ≤ chunks.length := by omega
    have hne : (pySliceFromNeg chunks (required_chunks cfg)).length ≠ 0 := by
      rw [hslice, takeLastN_length, min_eq_left hRlen]
      omega
    rw [detect_silence_of_ge hge hcount' hne]
    congr 1
    apply decide_eq_true
    rw [hslice, takeLastN_length, min_eq_left hRlen]
    have hpos : 0 < (((required_chunks cfg).toNat : ℕ) : ℚ) := by
      have : 0 < (required_chunks cfg).toNat := by omega
      exact_mod_cast this
    rw [le_div_iff₀ hpos]
    have hc : ((17 * (required_chunks cfg).toNat : ℕ) : ℚ) ≤
        ((20 * n : ℕ) : ℚ) := by exact_mod_cast hratio
    push_cast at hc ⊢
    linarith

/-- Witness for C1 under `cfgW` (`silence_duration = 1.0`,
`chunk_duration = 0.5`, `R = 2`): a buffer of two silent chunks makes
`detect_silence` return true. -/
theorem c1_detect_silence_witness :
    detect_silence cfgW [sChunk, sChunk] = some true := by
  have hq : (0:ℝ) ≤ cfgW.silence_threshold := by norm_num [cfgW]
  have hR : required_chunks cfgW = 2 := by
    norm_num [required_chunks, chunks_per_second, cfgW, pyInt]
  have hcount : countSilent cfgW
      (takeLastN (required_chunks cfgW).toNat [sChunk, sChunk]) = some 2 := by
    rw [hR]
    have hsl : takeLastN (Int.toNat 2) [sChunk, sChunk] = [sChunk, sChunk] := by
      simp [takeLastN]
    rw [hsl]
    have h := countSilent_sChunk_cons hq
      (countSilent_sChunk_cons hq (countSilent_nil cfgW))
    simpa using h
  exact ((c1_detect_silence_spec cfgW [sChunk, sChunk] 2
      (by rw [hR]; norm_num) hcount).1).mpr
    ⟨by rw [hR]; simp, by rw [hR]; decide⟩

/-- Counterexample to C1 as stated: under `silence_duration = 0.75`,
`chunk_duration = 0.5` the claim's window size is
`ceil(0.75 / 0.5) = 2`, so on a single-chunk buffer it mandates `false`;
the code computes `int(0.75 * int(1.0/0.5)) = 1` and declares silence on
one silent chunk. -/
theorem c1_counterexample :
    detect_silence cfgB [sChunk] = some true ∧
    (([sChunk] : List (List ℕ)).length : ℤ) <
      ⌈cfgB.silence_duration / cfgB.chunk_duration⌉ := by
  constructor
  · have hRB : required_chunks cfgB = 1 := by
      norm_num [required_chunks, chunks_per_second, cfgB, pyInt]
    have hq : (0:ℝ) ≤ cfgB.silence_threshold := by norm_num [cfgB]
    have hsl : pySliceFromNeg [sChunk] (required_chunks cfgB) = [sChunk] := by
      rw [hRB]; simp [pySliceFromNeg, takeLastN]
    have hcount : countSilent cfgB
        (pySliceFromNeg [sChunk] (required_chunks cfgB)) = some 1 := by
      rw [hsl]
      have h := countSilent_sChunk_cons hq (countSilent_nil cfgB)
      simpa using h
    have h := @detect_silence_of_ge cfgB [sChunk] 1
      (by rw [hRB]; simp) hcount (by rw [hsl]; simp)
    rw [hsl] at h
    rw [h]
    congr 1
    apply decide_eq_true
    norm_num
  · simp only [cfgB, List.length_cons, List.length_nil]
    rw [show ((3:ℚ)/4) / ((1:ℚ)/2) = 3/2 by norm_num]
    exact_mod_cast Int.lt_ceil.mpr (by norm_num : ((1:ℤ):ℚ) < 3/2)

/-! ## The idle phase of the loop -/

theorem takeLastN_idem (k : ℕ) (l : List α) :
    takeLastN k (takeLastN k l) = takeLastN k l := by
  apply takeLastN_eq_self
  rw [takeLastN_length]
  omega

theorem takeLastN_append_of_le {k : ℕ} (x m : List α) (h : k ≤ m.length) :
    takeLastN k (x ++ m) = takeLastN k m := by
  unfold takeLastN
  rw [List.length_append]
  have e : x.length + m.length - k = x.length + (m.length - k) := by omega
  rw [e, ← List.drop_drop, List.drop_left]

theorem takeLastN_append_of_ge {k : ℕ} (x m : List α) (h : m.length ≤ k) :
    takeLastN k (x ++ m) = takeLastN (k - m.length) x ++ m := by
  unfold takeLastN
  rw [List.length_append]
  have h2 : x.length + m.length - k ≤ x.length := by omega
  rw [List.drop_append_of_le_length h2]
  congr 2
  omega

theorem takeLastN_takeLastN {j k : ℕ} (h : j ≤ k) (l : List α) :
    takeLastN j (takeLastN k l) = takeLastN j l := by
  rcases le_or_lt l.length k with hn | hn
  · rw [takeLastN_eq_self hn]
  · unfold takeLastN
    rw [List.length_drop, List.drop_drop]
    congr 1
    omega

/-- Bounding the backlog commutes with appending: only the last `k`
elements ever matter. -/
theorem takeLastN_takeLastN_append (k : ℕ) (l m : List α) :
    takeLastN k (takeLastN k l ++ m) = takeLastN k (l ++ m) := by
  rcases le_or_lt k m.length with hm | hm
  · rw [takeLastN_append_of_le _ _ hm, takeLastN_append_of_le _ _ hm]
  · rw [takeLastN_append_of_ge _ _ (by omega),
        takeLastN_append_of_ge _ _ (by omega),
        takeLastN_takeLastN (by omega)]

theorem runLoop_append (cfg : Config) (l1 : List (List ℕ)) :
    ∀ (s : RunState) (l2 : List (List ℕ)),
      (runLoop cfg s l1).errored = false →
      runLoop cfg s (l1 ++ l2) =
        ⟨(runLoop cfg (runLoop cfg s l1).final l2).final,
         (runLoop cfg s l1).spans ++
           (runLoop cfg (runLoop cfg s l1).final l2).spans,
         (runLoop cfg (runLoop cfg s l1).final l2).errored⟩ := by
  induction l1 with
  | nil =>
    intro s l2 _
    rfl
  | cons c rest ih =>
    intro s l2 h
    rcases hstep : step cfg s c with _ | p
    · rw [runLoop_cons_none rest hstep] at h
      simp at h
    · obtain ⟨s', out⟩ := p
      rw [runLoop_cons_some rest hstep] at h ⊢
      simp only at h
      rw [List.cons_append, runLoop_cons_some (rest ++ l2) hstep, ih s' l2 h]
      simp [List.append_assoc]

/-- While the machine is idle and every incoming chunk is at or below the
threshold, the loop just feeds the pre-roll deque: no recording, no spans,
and the pre-roll holds exactly the last `pre_buffer_size` chunks seen. -/
theorem runLoop_idle (cfg : Config) (qs : List (List ℕ))
    (hq : ∀ x ∈ qs, ∃ rx, calculate_rms x = some rx ∧
      rx ≤ cfg.silence_threshold) :
    ∀ pre0 : List (List ℕ),
      takeLastN (pre_buffer_size cfg).toNat pre0 = pre0 →
      runLoop cfg ⟨false, [], pre0⟩ qs =
        ⟨⟨false, [], takeLastN (pre_buffer_size cfg).toNat (pre0 ++ qs)⟩,
          [], false⟩ := by
  induction qs with
  | nil =>
    intro pre0 hpre
    rw [runLoop_nil, List.append_nil, hpre]
  | cons q rest ih =>
    intro pre0 hpre
    obtain ⟨rq, hrq, hrqle⟩ := hq q (by simp)
    have hstep := @step_idle_quiet cfg ⟨false, [], pre0⟩ q rq rfl hrq
      (not_lt.mpr hrqle)
    rw [runLoop_cons_some rest hstep]
    have hrest : ∀ x ∈ rest, ∃ rx, calculate_rms x = some rx ∧
        rx ≤ cfg.silence_threshold := fun x hx => hq x (by simp [hx])
    have hbound : takeLastN (pre_buffer_size cfg).toNat
        (dequePush (pre_buffer_size cfg) pre0 q) =
        dequePush (pre_buffer_size cfg) pre0 q := takeLastN_idem _ _
    have ih' := ih hrest (dequePush (pre_buffer_size cfg) pre0 q) hbound
    rw [show (⟨false, (⟨false, [], pre0⟩ : RunState).audio_chunks,
        dequePush (pre_buffer_size cfg) pre0 q⟩ : RunState) =
        ⟨false, [], dequePush (pre_buffer_size cfg) pre0 q⟩ from rfl, ih']
    simp only [dequePush, takeLastN_takeLastN_append]
    rw [show pre0 ++ [q] ++ rest = pre0 ++ (q :: rest) by simp]
    simp

/-- Claim C4: for every quiet chunk sequence observed while Idle since the
last clear, at the Idle→Recording trigger the pre-roll buffer contains
exactly the last `pre_buffer_size` of those chunks (all of them when fewer
were observed — `takeLastN` keeps the whole list then), in order, with no
duplication and no omission; and every chunk observed while Idle is pushed
into the pre-roll deque. -/
theorem c4_pre_roll_capture (cfg : Config) (qs : List (List ℕ)) (c : List ℕ)
    (r : ℝ)
    (hq : ∀ x ∈ qs, ∃ rx, calculate_rms x = some rx ∧
      rx ≤ cfg.silence_threshold)
    (hc : calculate_rms c = some r) (hr : cfg.silence_threshold < r) :
    (runLoop cfg initState (qs ++ [c])).final =
      ⟨true, takeLastN (pre_buffer_size cfg).toNat qs ++ [c],
        takeLastN (pre_buffer_size cfg).toNat qs⟩ ∧
    (∀ pre x rx, calculate_rms x = some rx → rx ≤ cfg.silence_threshold →
      step cfg ⟨false, [], pre⟩ x =
        some (⟨false, [], dequePush (pre_buffer_size cfg) pre x⟩, none)) := by
  constructor
  · have h1 := runLoop_idle cfg qs hq [] (by simp [takeLastN])
    have herr : (runLoop cfg initState qs).errored = false := by
      show (runLoop cfg ⟨false, [], []⟩ qs).errored = false
      rw [h1]
    rw [runLoop_append cfg qs initState [c] herr]
    show (runLoop cfg (runLoop cfg ⟨false, [], []⟩ qs).final [c]).final = _
    rw [h1]
    have hstep := @step_idle_loud cfg
      ⟨false, [], takeLastN (pre_buffer_size cfg).toNat ([] ++ qs)⟩ c r
      rfl hc hr
    rw [runLoop_cons_some [] hstep, runLoop_nil]
    simp
  · intro pre x rx hx hxle
    exact @step_idle_quiet cfg ⟨false, [], pre⟩ x rx rfl hx (not_lt.mpr hxle)

/-- Witness for C4 under `cfgW` (`pre_buffer_size = 2`): one silent chunk
then a loud trigger; at the trigger the recording buffer is the pre-roll
snapshot (the one silent chunk) followed by the trigger, and the pre-roll
is that snapshot. -/
theorem c4_pre_roll_witness :
    (runLoop cfgW initState ([sChunk] ++ [tChunk])).final =
      ⟨true, takeLastN (pre_buffer_size cfgW).toNat [sChunk] ++ [tChunk],
        takeLastN (pre_buffer_size cfgW).toNat [sChunk]⟩ :=
  (c4_pre_roll_capture cfgW [sChunk] tChunk _
    (by
      intro x hx
      rw [List.mem_singleton] at hx
      subst hx
      exact ⟨0, rms_sChunk, by norm_num [cfgW]⟩)
    rms_tChunk (by norm_num [cfgW])).1

/-- Inversion of a span-less step taken from the Recording state: the
machine stays recording, the pre-roll buffer is untouched, and the chunk is
appended to the recording buffer. -/
theorem step_rec_none_inversion {cfg : Config} {s : RunState} {c : List ℕ}
    {s' : RunState} (hrec : s.recording = true)
    (h : step cfg s c = some (s', none)) :
    s'.recording = true ∧ s'.pre_buffer = s.pre_buffer ∧
    s'.audio_chunks = s.audio_chunks ++ [c] := by
  simp only [step] at h
  rcases hc : calculate_rms c with _ | r <;> rw [hc] at h
  · exact Option.noConfusion h
  · simp only [Option.some_bind] at h
    split_ifs at h with h1 h2 h3 h4
    · exfalso; rw [hrec] at h1; simp at h1
    · exfalso; rw [hrec] at h2; simp at h2
    · rcases hd : detect_silence cfg (s.audio_chunks ++ [c]) with _ | b <;>
        rw [hd] at h
      · exact Option.noConfusion h
      · simp only [Option.some_bind] at h
        cases b
        · rw [if_neg (by simp)] at h
          injection h with h
          injection h with h5 h6
          rw [← h5]
          exact ⟨rfl, rfl, rfl⟩
        · rw [if_pos rfl] at h
          injection h with h
          injection h with h5 h6
          exact Option.noConfusion h6
    · rcases hd : detect_silence cfg (s.audio_chunks ++ [c]) with _ | b <;>
        rw [hd] at h
      · exact Option.noConfusion h
      · simp only [Option.some_bind] at h
        cases b
        · rw [if_neg (by simp)] at h
          injection h with h
          injection h with h5 h6
          rw [← h5]
          exact ⟨rfl, rfl, rfl⟩
        · rw [if_pos rfl] at h
          injection h with h
          injection h with h5 h6
          exact Option.noConfusion h6
    · injection h with h
      injection h with h5 h6
      rw [← h5]
      exact ⟨rfl, rfl, rfl⟩

/-- Claim C5: at every Idle→Recording transition the recording buffer is a
snapshot of the pre-roll contents followed by the triggering chunk, and the
pre-roll buffer is not cleared there; the pre-roll buffer is cleared
exactly at the Recording→Idle transition, together with the recording
buffer being reset to empty; in every other step from Recording both keep
growing/unchanged, and while Idle the pre-roll is only pushed to. -/
theorem c5_transition_buffers (cfg : Config) :
    (∀ s c r, s.recording = false → calculate_rms c = some r →
      cfg.silence_threshold < r →
      step cfg s c = some (⟨true, s.pre_buffer ++ [c], s.pre_buffer⟩, none)) ∧
    (∀ s c s' span, step cfg s c = some (s', some span) →
      s' = ⟨false, [], []⟩) ∧
    (∀ s c s', s.recording = true → step cfg s c = some (s', none) →
      s'.recording = true ∧ s'.pre_buffer = s.pre_buffer ∧
      s'.audio_chunks = s.audio_chunks ++ [c]) ∧
    (∀ s c r, s.recording = false → calculate_rms c = some r →
      ¬ cfg.silence_threshold < r →
      step cfg s c = some (⟨false, s.audio_chunks,
        dequePush (pre_buffer_size cfg) s.pre_buffer c⟩, none)) :=
  ⟨fun _ _ _ hrec hc hr => step_idle_loud hrec hc hr,
   fun _ _ _ _ h => (step_span_inversion h).2.2.2.1,
   fun _ _ _ hrec h => step_rec_none_inversion hrec h,
   fun _ _ _ hrec hc hr => step_idle_quiet hrec hc hr⟩

/-- Witness for C5: the trigger step from an idle state with one buffered
chunk snapshots the pre-roll into the recording buffer without clearing
it; a quiet idle step only pushes into the pre-roll; and the `cfgA`
finalization step `trace_st7` resets to the cleared state. -/
theorem c5_transition_witness :
    step cfgW ⟨false, [], [sChunk]⟩ tChunk =
      some (⟨true, [sChunk] ++ [tChunk], [sChunk]⟩, none) ∧
    step cfgW ⟨false, [], []⟩ sChunk =
      some (⟨false, [], dequePush (pre_buffer_size cfgW) [] sChunk⟩, none) ∧
    (⟨false, [], []⟩ : RunState) = ⟨false, [], []⟩ :=
  ⟨(c5_transition_buffers cfgW).1 ⟨false, [], [sChunk]⟩ tChunk _
      rfl rms_tChunk (by norm_num [cfgW]),
   (c5_transition_buffers cfgW).2.2.2 ⟨false, [], []⟩ sChunk _
      rfl rms_sChunk (by norm_num [cfgW]),
   (c5_transition_buffers cfgA).2.1
      ⟨true, [tChunk, sChunk, sChunk, sChunk, sChunk, sChunk], []⟩ sChunk
      ⟨false, [], []⟩ [tChunk, sChunk] trace_st7⟩

/-- Claim C6: from the Idle state a step enters Recording exactly when the
chunk's loudness strictly exceeds `silence_threshold`; consequently, on any
chunk sequence whose loudness never exceeds the threshold, the machine
never enters Recording and never emits a span. -/
theorem c6_vad_trigger (cfg : Config) :
    (∀ s c r s' out, s.recording = false → calculate_rms c = some r →
      step cfg s c = some (s', out) →
      (s'.recording = true ↔ cfg.silence_threshold < r)) ∧
    (∀ chunks : List (List ℕ),
      (∀ x ∈ chunks, ∃ rx, calculate_rms x = some rx ∧
        rx ≤ cfg.silence_threshold) →
      (runLoop cfg initState chunks).final.recording = false ∧
      (runLoop cfg initState chunks).spans = []) := by
  constructor
  · intro s c r s' out hrec hc hstep
    by_cases hthr : cfg.silence_threshold < r
    · rw [step_idle_loud hrec hc hthr] at hstep
      injection hstep with hstep
      injection hstep with h1 h2
      rw [← h1]
      simp [hthr]
    · rw [step_idle_quiet hrec hc hthr] at hstep
      injection hstep with hstep
      injection hstep with h1 h2
      rw [← h1]
      simp [hthr]
  · intro chunks hq
    have h := runLoop_idle cfg chunks hq [] (by simp [takeLastN])
    constructor
    · show (runLoop cfg ⟨false, [], []⟩ chunks).final.recording = false
      rw [h]
    · show (runLoop cfg ⟨false, [], []⟩ chunks).spans = []
      rw [h]

/-- Witness for C6: three silent chunks under `cfgW` leave the machine in
Idle with no spans. -/
theorem c6_vad_witness :
    (runLoop cfgW initState [sChunk, sChunk, sChunk]).final.recording = false ∧
    (runLoop cfgW initState [sChunk, sChunk, sChunk]).spans = [] :=
  (c6_vad_trigger cfgW).2 [sChunk, sChunk, sChunk]
    (by
      intro x hx
      simp only [List.mem_cons, List.not_mem_nil, or_false] at hx
      rcases hx with rfl | rfl | rfl <;>
        exact ⟨0, rms_sChunk, by norm_num [cfgW]⟩)

/-! ## Claim C3: the minimum-length guard survives trimming

The arithmetic heart: at any silence-triggered finalization where trimming
applies, the floor-arithmetic relations between `chunks_per_second`,
`min_recording_chunks`, `required_chunks` and `silence_chunks_to_remove`
force the trimmed length back above `min_recording_chunks`.  The case
split mirrors whether the loud trigger chunk sits inside the inspected
window (then the 0.85 ratio forces `required_chunks ≥ 7`) or before it
(then `required_chunks ≤ len - 1`). -/
theorem c3_core (cfg : Config) (hcd : 0 < cfg.chunk_duration)
    (hpbd : 0 ≤ cfg.pre_buffer_duration) (len : ℤ)
    (hlenm : min_recording_chunks cfg < len)
    (hguard : silence_chunks_to_remove cfg + pre_buffer_size cfg < len)
    (hlenR : required_chunks cfg ≤ len)
    (hdich : required_chunks cfg ≤ len - 1 ∨ 7 ≤ required_chunks cfg) :
    min_recording_chunks cfg ≤ len - silence_chunks_to_remove cfg := by
  by_contra hcon'
  push_neg at hcon'
  have hrm1 : 1 ≤ silence_chunks_to_remove cfg := silence_chunks_to_remove_pos cfg
  rcases le_or_lt (silence_chunks_to_remove cfg) 1 with hrmle | hrm2
  · omega
  · have hrmmax : silence_chunks_to_remove cfg =
        max 1 ((pyInt (cfg.silence_duration * 10)).fdiv 3) := rfl
    have hrmfd : silence_chunks_to_remove cfg =
        (pyInt (cfg.silence_duration * 10)).fdiv 3 := by
      rcases max_choice 1 ((pyInt (cfg.silence_duration * 10)).fdiv 3) with h | h
      · rw [hrmmax] at hrm2; omega
      · rw [hrmmax]; exact h
    have hKediv : (pyInt (cfg.silence_duration * 10)).fdiv 3 =
        pyInt (cfg.silence_duration * 10) / 3 :=
      Int.fdiv_eq_ediv _ (by norm_num)
    have hKfd : 2 ≤ pyInt (cfg.silence_duration * 10) / 3 := by
      rw [hrmfd, hKediv] at hrm2; omega
    have hK6 : 6 ≤ pyInt (cfg.silence_duration * 10) := by omega
    have h3rm : 3 * silence_chunks_to_remove cfg ≤
        pyInt (cfg.silence_duration * 10) := by
      rw [hrmfd, hKediv]; omega
    have hsd6 : (6:ℚ) ≤ cfg.silence_duration * 10 :=
      ge_of_pyInt_ge (by norm_num) hK6
    have hsd35 : (3/5 : ℚ) ≤ cfg.silence_duration := by linarith
    have hKle : ((pyInt (cfg.silence_duration * 10) : ℤ) : ℚ) ≤
        cfg.silence_duration * 10 := pyInt_cast_le (by linarith)
    have hcap0 : 0 ≤ pre_buffer_size cfg :=
      pyInt_nonneg (div_nonneg hpbd hcd.le)
    have hm2 : 2 ≤ min_recording_chunks cfg := by omega
    have h310 : (0:ℚ) ≤ 3/10 / cfg.chunk_duration :=
      div_nonneg (by norm_num) hcd.le
    have hmq : (2:ℚ) ≤ 3/10 / cfg.chunk_duration :=
      ge_of_pyInt_ge (by norm_num) hm2
    have hcd320 : cfg.chunk_duration ≤ 3/20 := by
      rw [le_div_iff₀ hcd] at hmq; linarith
    have hinv0 : (0:ℚ) < 1 / cfg.chunk_duration := by positivity
    have h1cd : (20/3 : ℚ) ≤ 1 / cfg.chunk_duration := by
      rw [le_div_iff₀ hcd]; linarith
    have hcps6 : 6 ≤ chunks_per_second cfg :=
      le_pyInt hinv0.le (by push_cast; linarith)
    have hcps6q : (6:ℚ) ≤ (chunks_per_second cfg : ℚ) := by exact_mod_cast hcps6
    have hcps_gt : (1:ℚ) / cfg.chunk_duration < chunks_per_second cfg + 1 :=
      lt_pyInt_add_one hinv0.le
    have hmle : ((min_recording_chunks cfg : ℤ) : ℚ) ≤
        3/10 / cfg.chunk_duration := pyInt_cast_le h310
    have hm_lt : ((min_recording_chunks cfg : ℤ) : ℚ) <
        3/10 * ((chunks_per_second cfg : ℚ) + 1) := by
      have e : (3:ℚ)/10 / cfg.chunk_duration =
          3/10 * (1 / cfg.chunk_duration) := by ring
      rw [e] at hmle
      nlinarith
    have hsdcps0 : (0:ℚ) ≤ cfg.silence_duration * (chunks_per_second cfg : ℚ) :=
      mul_nonneg (by linarith) (by linarith)
    have hR_l : cfg.silence_duration * (chunks_per_second cfg : ℚ) <
        (required_chunks cfg : ℚ) + 1 := by
      have := lt_pyInt_add_one hsdcps0
      push_cast at this ⊢
      convert this using 2
    have h3rmq : 3 * ((silence_chunks_to_remove cfg : ℤ) : ℚ) ≤
        10 * cfg.silence_duration := by
      have hc : ((3 * silence_chunks_to_remove cfg : ℤ) : ℚ) ≤
          ((pyInt (cfg.silence_duration * 10) : ℤ) : ℚ) := by exact_mod_cast h3rm
      push_cast at hc
      linarith
    have hprod35 : (3/5) * ((chunks_per_second cfg : ℚ) - 10/3) ≤
        cfg.silence_duration * ((chunks_per_second cfg : ℚ) - 10/3) :=
      mul_le_mul_of_nonneg_right hsd35 (by linarith)
    have hexp : cfg.silence_duration * (chunks_per_second cfg : ℚ) -
        10/3 * cfg.silence_duration =
        cfg.silence_duration * ((chunks_per_second cfg : ℚ) - 10/3) := by ring
    rcases hdich with hd | hd
    · have hRi : required_chunks cfg ≤
          min_recording_chunks cfg + silence_chunks_to_remove cfg - 2 := by
        omega
      have hRiq : ((required_chunks cfg : ℤ) : ℚ) ≤
          ((min_recording_chunks cfg : ℤ) : ℚ) +
          ((silence_chunks_to_remove cfg : ℤ) : ℚ) - 2 := by
        exact_mod_cast hRi
      linarith
    · have hRi : required_chunks cfg ≤
          min_recording_chunks cfg + silence_chunks_to_remove cfg - 1 := by
        omega
      have hRiq : ((required_chunks cfg : ℤ) : ℚ) ≤
          ((min_recording_chunks cfg : ℤ) : ℚ) +
          ((silence_chunks_to_remove cfg : ℤ) : ℚ) - 1 := by
        exact_mod_cast hRi
      have hcps7 : chunks_per_second cfg ≤ 7 := by
        by_contra hcps8'
        push_neg at hcps8'
        have h8q : (8:ℚ) ≤ (chunks_per_second cfg : ℚ) := by exact_mod_cast hcps8'
        linarith
      have hcps7q : ((chunks_per_second cfg : ℤ) : ℚ) ≤ 7 := by exact_mod_cast hcps7
      have hm_le2 : min_recording_chunks cfg ≤ 2 := by
        have h12 : ((min_recording_chunks cfg : ℤ) : ℚ) < 12/5 := by linarith
        have h5m : (5 * min_recording_chunks cfg : ℤ) < 12 := by
          exact_mod_cast (by push_cast; linarith :
            ((5 * min_recording_chunks cfg : ℤ) : ℚ) < 12)
        omega
      have hrm6 : 6 ≤ silence_chunks_to_remove cfg := by omega
      have hK18 : 18 ≤ pyInt (cfg.silence_duration * 10) := by omega
      have hsd95 : (9/5 : ℚ) ≤ cfg.silence_duration := by
        have h18q : (18:ℚ) ≤ cfg.silence_duration * 10 :=
          ge_of_pyInt_ge (by norm_num) hK18
        linarith
      have hprod95 : (9/5) * ((chunks_per_second cfg : ℚ) - 10/3) ≤
          cfg.silence_duration * ((chunks_per_second cfg : ℚ) - 10/3) :=
        mul_le_mul_of_nonneg_right hsd95 (by linarith)
      have hm2q : ((min_recording_chunks cfg : ℤ) : ℚ) ≤ 2 := by
        exact_mod_cast hm_le2
      linarith

/-- A step preserves the shape invariant of the Recording state: the
recording buffer always decomposes as pre-roll prefix, the loud trigger
chunk, and the chunks appended since. -/
theorem step_preserves_trigger_shape {cfg : Config} {s : RunState}
    {c : List ℕ} {s' : RunState} {out : Option (List (List ℕ))}
    (h : step cfg s c = some (s', out))
    (hinv : s.recording = true → ∃ p t rest r,
      s.audio_chunks = p ++ t :: rest ∧ calculate_rms t = some r ∧
      cfg.silence_threshold < r) :
    s'.recording = true → ∃ p t rest r,
      s'.audio_chunks = p ++ t :: rest ∧ calculate_rms t = some r ∧
      cfg.silence_threshold < r := by
  simp only [step] at h
  rcases hc : calculate_rms c with _ | r <;> rw [hc] at h
  · exact Option.noConfusion h
  · simp only [Option.some_bind] at h
    split_ifs at h with h1 h2 h3 h4
    · injection h with h
      injection h with h5 h6
      rw [← h5]
      intro _
      exact ⟨s.pre_buffer, c, [], r, rfl, hc, h1.2⟩
    · injection h with h
      injection h with h5 h6
      rw [← h5]
      intro hco
      simp at hco
    · rcases hd : detect_silence cfg (s.audio_chunks ++ [c]) with _ | b <;>
        rw [hd] at h
      · exact Option.noConfusion h
      · simp only [Option.some_bind] at h
        have hrec : s.recording = true := by
          revert h2; cases s.recording <;> simp
        obtain ⟨p, t, rst, rt, heq, hrms, hrt⟩ := hinv hrec
        cases b
        · rw [if_neg (by simp)] at h
          injection h with h
          injection h with h5 h6
          rw [← h5]
          intro _
          exact ⟨p, t, rst ++ [c], rt, by rw [heq]; simp, hrms, hrt⟩
        · rw [if_pos rfl] at h
          injection h with h
          injection h with h5 h6
          rw [← h5]
          intro hco
          simp at hco
    · rcases hd : detect_silence cfg (s.audio_chunks ++ [c]) with _ | b <;>
        rw [hd] at h
      · exact Option.noConfusion h
      · simp only [Option.some_bind] at h
        have hrec : s.recording = true := by
          revert h2; cases s.recording <;> simp
        obtain ⟨p, t, rst, rt, heq, hrms, hrt⟩ := hinv hrec
        cases b
        · rw [if_neg (by simp)] at h
          injection h with h
          injection h with h5 h6
          rw [← h5]
          intro _
          exact ⟨p, t, rst ++ [c], rt, by rw [heq]; simp, hrms, hrt⟩
        · rw [if_pos rfl] at h
          injection h with h
          injection h with h5 h6
          rw [← h5]
          intro hco
          simp at hco
    · injection h with h
      injection h with h5 h6
      rw [← h5]
      intro _
      have hrec : s.recording = true := by
        revert h2; cases s.recording <;> simp
      obtain ⟨p, t, rst, rt, heq, hrms, hrt⟩ := hinv hrec
      exact ⟨p, t, rst ++ [c], rt, by rw [heq]; simp, hrms, hrt⟩

/-- Every span a single step emits respects the minimum-recording-chunk
guard, trimmed or not. -/
theorem step_span_min_length {cfg : Config} {s : RunState} {c : List ℕ}
    {s' : RunState} {span : List (List ℕ)}
    (hcd : 0 < cfg.chunk_duration) (hpbd : 0 ≤ cfg.pre_buffer_duration)
    (hinv : s.recording = true → ∃ p t rest r,
      s.audio_chunks = p ++ t :: rest ∧ calculate_rms t = some r ∧
      cfg.silence_threshold < r)
    (h : step cfg s c = some (s', some span)) :
    min_recording_chunks cfg ≤ (span.length : ℤ) := by
  obtain ⟨hrec, hlen, hdet, _, hspan⟩ := step_span_inversion h
  by_cases hguard : silence_chunks_to_remove cfg + pre_buffer_size cfg <
      ((s.audio_chunks ++ [c]).length : ℤ)
  · rw [hspan, if_pos hguard]
    obtain ⟨hlenR, n, hcount, hne, hratio⟩ := detect_silence_true_elim hdet
    obtain ⟨p, t, rst, rt, heq, hrms, hrt⟩ := hinv hrec
    have haudio : s.audio_chunks ++ [c] = p ++ t :: (rst ++ [c]) := by
      rw [heq]; simp
    have hlenaudio : (s.audio_chunks ++ [c]).length =
        p.length + rst.length + 2 := by
      rw [haudio]; simp; omega
    have hdich : required_chunks cfg ≤
        ((s.audio_chunks ++ [c]).length : ℤ) - 1 ∨
        7 ≤ required_chunks cfg := by
      rcases le_or_lt (required_chunks cfg) ((rst.length : ℤ) + 1) with hcase | hcase
      · left; omega
      · right
        have hslice : pySliceFromNeg (s.audio_chunks ++ [c])
            (required_chunks cfg) =
            takeLastN (required_chunks cfg).toNat (s.audio_chunks ++ [c]) := by
          unfold pySliceFromNeg
          rw [if_neg (by omega)]
        have hmem : t ∈ takeLastN (required_chunks cfg).toNat
            (s.audio_chunks ++ [c]) := by
          unfold takeLastN
          rw [haudio]
          have hlen2 : (p ++ t :: (rst ++ [c])).length =
              p.length + rst.length + 2 := by simp; omega
          have hdrople : (p ++ t :: (rst ++ [c])).length -
              (required_chunks cfg).toNat ≤ p.length := by omega
          rw [List.drop_append_of_le_length hdrople]
          simp
        rw [hslice] at hcount hne hratio
        have hcnt := countSilent_lt_of_loud_mem hrms (not_le.mpr hrt) hmem hcount
        have hlenrec : (takeLastN (required_chunks cfg).toNat
            (s.audio_chunks ++ [c])).length = (required_chunks cfg).toNat := by
          rw [takeLastN_length]
          omega
        rw [hlenrec] at hratio hcnt
        omega
    have hcore := c3_core cfg hcd hpbd ((s.audio_chunks ++ [c]).length : ℤ)
      hlen hguard hlenR hdich
    have hcap0 : 0 ≤ pre_buffer_size cfg :=
      pyInt_nonneg (div_nonneg hpbd hcd.le)
    have ht : ((silence_chunks_to_remove cfg).toNat : ℤ) =
        silence_chunks_to_remove cfg :=
      Int.toNat_of_nonneg (by
        have := silence_chunks_to_remove_pos cfg; omega)
    rw [List.length_take]
    omega
  · rw [hspan, if_neg hguard]
    omega

/-- Claim C3: for every input chunk sequence and every configuration with a
positive chunk duration and non-negative pre-buffer duration, every
finalized speech span — the trimmed recording buffer handed to the payload
encoder — has length in chunks at least the minimum-recording-chunk guard
`int(0.3 / chunk_duration)`, even when trimming would otherwise shorten it
below that. -/
theorem c3_min_span_length (cfg : Config) (hcd : 0 < cfg.chunk_duration)
    (hpbd : 0 ≤ cfg.pre_buffer_duration) (chunks : List (List ℕ))
    (span : List (List ℕ))
    (hmem : span ∈ (runLoop cfg initState chunks).spans) :
    min_recording_chunks cfg ≤ (span.length : ℤ) := by
  suffices h : ∀ s : RunState,
      (s.recording = true → ∃ p t rest r,
        s.audio_chunks = p ++ t :: rest ∧ calculate_rms t = some r ∧
        cfg.silence_threshold < r) →
      ∀ sp ∈ (runLoop cfg s chunks).spans,
        min_recording_chunks cfg ≤ (sp.length : ℤ) by
    exact h initState (by intro hco; simp [initState] at hco) span hmem
  clear hmem span
  induction chunks with
  | nil =>
    intro s _ sp hsp
    rw [runLoop_nil] at hsp
    simp at hsp
  | cons c rest ih =>
    intro s hinvs sp hsp
    rcases hstep : step cfg s c with _ | pr
    · rw [runLoop_cons_none rest hstep] at hsp
      simp at hsp
    · obtain ⟨s', out⟩ := pr
      rw [runLoop_cons_some rest hstep] at hsp
      simp only [List.mem_append] at hsp
      rcases hsp with hsp | hsp
      · rcases out with _ | sp'
        · simp at hsp
        · simp only [Option.toList_some, List.mem_singleton] at hsp
          subst hsp
          exact step_span_min_length hcd hpbd hinvs hstep
      · exact ih s' (step_preserves_trigger_shape hstep hinvs) sp hsp

/-- Witness for C3: in the concrete `cfgA` run the single emitted span has
2 chunks and `min_recording_chunks cfgA = 1 ≤ 2`. -/
theorem c3_min_span_witness :
    min_recording_chunks cfgA ≤ (([tChunk, sChunk] : List (List ℕ)).length : ℤ) :=
  c3_min_span_length cfgA (by norm_num [cfgA]) (by norm_num [cfgA])
    [tChunk, sChunk, sChunk, sChunk, sChunk, sChunk, sChunk] [tChunk, sChunk]
    (by rw [runA_eval]; simp)
